import Mathlib

/-!
Shallow embedding of the copy-trading pipeline (Rust repository
`solona_copytradebot`) and proofs about the claims of its specification.

Conventions of the embedding:
* Rust `f64` arithmetic on trade amounts and prices is modelled with exact
  rationals (`ℚ`); the claims under study only exercise values on which the
  `f64` computations of the source are exact.
* `std::time::Instant` is modelled as a rational number of time units
  (milliseconds for the dedup cache, seconds for the risk manager, matching
  the unit each module's own constants use).
* Rust `HashMap` is modelled as an association list (`List (key × value)`);
  its unspecified iteration order becomes the list order.
* Fallible Rust functions returning `Result` become `Except`; error
  variants carry the same information as the source's formatted messages.
* Asynchronous RPC / HTTP effects are passed in explicitly as oracle
  functions describing the outcome of each call.
-/

set_option autoImplicit false

namespace CopyBot

/-- Association-list lookup modelling `HashMap::get` / `DashMap::get`:
the first binding of the key, if any. -/
def findMap? {β : Type} (k : String) : List (String × β) → Option β
  | [] => none
  | (k', v) :: rest => if k' = k then some v else findMap? k rest

/-- Association-list insertion modelling `HashMap::insert` /
`DashMap::insert`: replace the first binding of the key in place, or append
a new binding at the end. -/
def insertMap {β : Type} (k : String) (v : β) : List (String × β) → List (String × β)
  | [] => [(k, v)]
  | (k', v') :: rest => if k' = k then (k, v) :: rest else (k', v') :: insertMap k v rest

/-- Association-list update modelling `HashMap::entry(k).or_default()`
followed by a mutation `f` of the entry. -/
def updateMap {β : Type} (k : String) (f : β → β) (dflt : β) :
    List (String × β) → List (String × β)
  | [] => [(k, f dflt)]
  | (k', v') :: rest =>
    if k' = k then (k', f v') :: rest else (k', v') :: updateMap k f dflt rest

@[simp] theorem findMap?_nil {β : Type} (k : String) : findMap? (β := β) k [] = none := rfl

theorem findMap?_cons {β : Type} (k k' : String) (v : β) (rest : List (String × β)) :
    findMap? k ((k', v) :: rest) = if k' = k then some v else findMap? k rest := rfl

theorem findMap?_insertMap_ne {β : Type} (k k' : String) (v : β) (l : List (String × β))
    (h : k' ≠ k) : findMap? k (insertMap k' v l) = findMap? k l := by
  induction l with
  | nil => simp [insertMap, findMap?, h]
  | cons p rest ih =>
    obtain ⟨a, b⟩ := p
    by_cases ha : a = k'
    · subst ha
      simp [insertMap, findMap?, h]
    · simp only [insertMap, if_neg ha]
      by_cases hak : a = k
      · simp [findMap?, hak]
      · simp [findMap?, hak, ih]

theorem findMap?_insertMap_absent {β : Type} (k : String) (v : β) (l : List (String × β))
    (h : findMap? k l = none) : findMap? k (insertMap k v l) = some v := by
  induction l with
  | nil => simp [insertMap, findMap?]
  | cons p rest ih =>
    obtain ⟨a, b⟩ := p
    by_cases hak : a = k
    · simp [findMap?, hak] at h
    · simp only [findMap?, if_neg hak] at h
      simp [insertMap, hak, findMap?, ih h]

theorem findMap?_filter {β : Type} (k : String) (v : β) (pred : String × β → Bool)
    (l : List (String × β)) (h : findMap? k l = some v) (hp : pred (k, v) = true) :
    findMap? k (l.filter pred) = some v := by
  induction l with
  | nil => simp [findMap?] at h
  | cons p rest ih =>
    obtain ⟨a, b⟩ := p
    by_cases hak : a = k
    · subst hak
      simp [findMap?] at h
      subst h
      simp [List.filter, hp, findMap?]
    · simp only [findMap?, if_neg hak] at h
      rcases hpb : pred (a, b) with _ | _
      · simpa [List.filter, hpb] using ih h
      · simpa [List.filter, hpb, findMap?, hak] using ih h

/-! ## Risk manager (`src/trading/risk.rs`) -/

/-- The three rejection kinds produced by `RiskManager::check_trade`.  The
source wraps each of them as `AppError::Trading(format!(..))`; the
constructors carry the numbers interpolated into those format strings. -/
inductive RiskError
  /-- "Trade amount {amount} SOL is below minimum {min} SOL" -/
  | BelowMin (amount min : ℚ)
  /-- "Trade amount {amount} SOL is above maximum {max} SOL" -/
  | AboveMax (amount max : ℚ)
  /-- "Token {mint} is in cooldown. Time remaining: {remaining}s" -/
  | Cooldown (mint : String) (remaining : ℚ)
  deriving DecidableEq, Repr

/-- `RiskManager` state: per-mint cooldown instants (seconds), the cooldown
duration, and the amount bounds. -/
structure RiskManager where
  cooldowns : List (String × ℚ)
  cooldown_duration : ℚ
  min_amount_sol : ℚ
  max_amount_sol : ℚ
  deriving Repr

namespace RiskManager

/-- `RiskManager::new`. -/
def new (min_sol max_sol : ℚ) (cooldown_secs : Nat) : RiskManager :=
  { cooldowns := []
    cooldown_duration := (cooldown_secs : ℚ)
    min_amount_sol := min_sol
    max_amount_sol := max_sol }

/-- `RiskManager::check_trade`, with the call instant made explicit
(`now` stands for the evaluation of `Instant::now()` implicit in
`last_trade.elapsed()`). -/
def check_trade (rm : RiskManager) (token_mint : String) (amount_sol : ℚ) (now : ℚ) :
    Except RiskError Unit :=
  if amount_sol < rm.min_amount_sol then
    .error (.BelowMin amount_sol rm.min_amount_sol)
  else if amount_sol > rm.max_amount_sol then
    .error (.AboveMax amount_sol rm.max_amount_sol)
  else
    match findMap? token_mint rm.cooldowns with
    | some last_trade =>
      if now - last_trade < rm.cooldown_duration then
        .error (.Cooldown token_mint (rm.cooldown_duration - (now - last_trade)))
      else .ok ()
    | none => .ok ()

/-- `RiskManager::record_trade`, with the `Instant::now()` instant made
explicit. -/
def record_trade (rm : RiskManager) (token_mint : String) (now : ℚ) : RiskManager :=
  { rm with cooldowns := insertMap token_mint now rm.cooldowns }

end RiskManager

theorem check_trade_eq_below (rm : RiskManager) (m : String) (a now : ℚ)
    (h1 : a < rm.min_amount_sol) :
    rm.check_trade m a now = .error (.BelowMin a rm.min_amount_sol) := by
  unfold RiskManager.check_trade
  rw [if_pos h1]

theorem check_trade_eq_above (rm : RiskManager) (m : String) (a now : ℚ)
    (h1 : ¬ a < rm.min_amount_sol) (h2 : a > rm.max_amount_sol) :
    rm.check_trade m a now = .error (.AboveMax a rm.max_amount_sol) := by
  unfold RiskManager.check_trade
  rw [if_neg h1, if_pos h2]

theorem check_trade_eq_of_none (rm : RiskManager) (m : String) (a now : ℚ)
    (h1 : ¬ a < rm.min_amount_sol) (h2 : ¬ a > rm.max_amount_sol)
    (hf : findMap? m rm.cooldowns = none) :
    rm.check_trade m a now = .ok () := by
  unfold RiskManager.check_trade
  rw [if_neg h1, if_neg h2, hf]

theorem check_trade_eq_of_some (rm : RiskManager) (m : String) (a now t : ℚ)
    (h1 : ¬ a < rm.min_amount_sol) (h2 : ¬ a > rm.max_amount_sol)
    (hf : findMap? m rm.cooldowns = some t) :
    rm.check_trade m a now =
      if now - t < rm.cooldown_duration then
        .error (.Cooldown m (rm.cooldown_duration - (now - t)))
      else .ok () := by
  unfold RiskManager.check_trade
  rw [if_neg h1, if_neg h2, hf]

theorem check_trade_below_iff (rm : RiskManager) (m : String) (a now : ℚ) :
    rm.check_trade m a now = .error (.BelowMin a rm.min_amount_sol) ↔
      a < rm.min_amount_sol := by
  constructor
  · intro h
    by_contra h1
    by_cases h2 : a > rm.max_amount_sol
    · rw [check_trade_eq_above rm m a now h1 h2] at h
      exact absurd h (by simp)
    · rcases hf : findMap? m rm.cooldowns with _ | t
      · rw [check_trade_eq_of_none rm m a now h1 h2 hf] at h
        exact absurd h (by simp)
      · rw [check_trade_eq_of_some rm m a now t h1 h2 hf] at h
        by_cases h3 : now - t < rm.cooldown_duration
        · rw [if_pos h3] at h
          exact absurd h (by simp)
        · rw [if_neg h3] at h
          exact absurd h (by simp)
  · exact check_trade_eq_below rm m a now

theorem check_trade_above_iff (rm : RiskManager) (m : String) (a now : ℚ) :
    rm.check_trade m a now = .error (.AboveMax a rm.max_amount_sol) ↔
      (¬ a < rm.min_amount_sol ∧ a > rm.max_amount_sol) := by
  constructor
  · intro h
    by_cases h1 : a < rm.min_amount_sol
    · rw [check_trade_eq_below rm m a now h1] at h
      exact absurd h (by simp)
    · by_cases h2 : a > rm.max_amount_sol
      · exact ⟨h1, h2⟩
      · rcases hf : findMap? m rm.cooldowns with _ | t
        · rw [check_trade_eq_of_none rm m a now h1 h2 hf] at h
          exact absurd h (by simp)
        · rw [check_trade_eq_of_some rm m a now t h1 h2 hf] at h
          by_cases h3 : now - t < rm.cooldown_duration
          · rw [if_pos h3] at h
            exact absurd h (by simp)
          · rw [if_neg h3] at h
            exact absurd h (by simp)
  · rintro ⟨h1, h2⟩
    exact check_trade_eq_above rm m a now h1 h2

theorem check_trade_cooldown_iff (rm : RiskManager) (m : String) (a now r : ℚ) :
    rm.check_trade m a now = .error (.Cooldown m r) ↔
      (rm.min_amount_sol ≤ a ∧ a ≤ rm.max_amount_sol ∧
        ∃ t, findMap? m rm.cooldowns = some t ∧ now - t < rm.cooldown_duration ∧
          r = rm.cooldown_duration - (now - t)) := by
  constructor
  · intro h
    by_cases h1 : a < rm.min_amount_sol
    · rw [check_trade_eq_below rm m a now h1] at h
      exact absurd h (by simp)
    · by_cases h2 : a > rm.max_amount_sol
      · rw [check_trade_eq_above rm m a now h1 h2] at h
        exact absurd h (by simp)
      · rcases hf : findMap? m rm.cooldowns with _ | t
        · rw [check_trade_eq_of_none rm m a now h1 h2 hf] at h
          exact absurd h (by simp)
        · rw [check_trade_eq_of_some rm m a now t h1 h2 hf] at h
          by_cases h3 : now - t < rm.cooldown_duration
          · rw [if_pos h3] at h
            injection h with h'
            injection h' with hm hr
            exact ⟨not_lt.mp h1, not_lt.mp h2, t, hf ▸ rfl, h3, hr.symm⟩
          · rw [if_neg h3] at h
            exact absurd h (by simp)
  · rintro ⟨hmin, hmax, t, hft, hlt, rfl⟩
    rw [check_trade_eq_of_some rm m a now t (not_lt.mpr hmin) (not_lt.mpr hmax) hft,
      if_pos hlt]

theorem check_trade_ok_iff (rm : RiskManager) (m : String) (a now : ℚ) :
    rm.check_trade m a now = .ok () ↔
      (rm.min_amount_sol ≤ a ∧ a ≤ rm.max_amount_sol ∧
        ∀ t, findMap? m rm.cooldowns = some t → rm.cooldown_duration ≤ now - t) := by
  constructor
  · intro h
    by_cases h1 : a < rm.min_amount_sol
    · rw [check_trade_eq_below rm m a now h1] at h
      exact absurd h (by simp)
    · by_cases h2 : a > rm.max_amount_sol
      · rw [check_trade_eq_above rm m a now h1 h2] at h
        exact absurd h (by simp)
      · refine ⟨not_lt.mp h1, not_lt.mp h2, ?_⟩
        intro u hu
        rw [check_trade_eq_of_some rm m a now u h1 h2 hu] at h
        by_cases h3 : now - u < rm.cooldown_duration
        · rw [if_pos h3] at h
          exact absurd h (by simp)
        · exact not_lt.mp h3
  · rintro ⟨hmin, hmax, hcool⟩
    rcases hf : findMap? m rm.cooldowns with _ | t
    · exact check_trade_eq_of_none rm m a now (not_lt.mpr hmin) (not_lt.mpr hmax) hf
    · rw [check_trade_eq_of_some rm m a now t (not_lt.mpr hmin) (not_lt.mpr hmax) hf,
        if_neg (not_lt.mpr (hcool t hf))]

/-- C7: `check_trade` evaluates min-bound, max-bound, cooldown in that fixed
order: it rejects with `BelowMin` iff the amount is strictly below `min_sol`;
otherwise with `AboveMax` iff strictly above `max_sol`; otherwise with
`Cooldown` iff the mint has a cooldown entry younger than
`cooldown_seconds`; otherwise it accepts.  Amounts exactly equal to a bound
pass it, and an out-of-bounds amount is reported as a bound violation (never
as `Cooldown`) even when the mint is in cooldown. -/
theorem C7_check_trade_rule_order (rm : RiskManager) (m : String) (a now : ℚ) :
    (rm.check_trade m a now = .error (.BelowMin a rm.min_amount_sol) ↔
      a < rm.min_amount_sol)
    ∧ (rm.check_trade m a now = .error (.AboveMax a rm.max_amount_sol) ↔
      (¬ a < rm.min_amount_sol ∧ a > rm.max_amount_sol))
    ∧ (∀ r : ℚ, rm.check_trade m a now = .error (.Cooldown m r) ↔
      (rm.min_amount_sol ≤ a ∧ a ≤ rm.max_amount_sol ∧
        ∃ t, findMap? m rm.cooldowns = some t ∧ now - t < rm.cooldown_duration ∧
          r = rm.cooldown_duration - (now - t)))
    ∧ (rm.check_trade m a now = .ok () ↔
      (rm.min_amount_sol ≤ a ∧ a ≤ rm.max_amount_sol ∧
        ∀ t, findMap? m rm.cooldowns = some t → rm.cooldown_duration ≤ now - t)) :=
  ⟨check_trade_below_iff rm m a now, check_trade_above_iff rm m a now,
    fun r => check_trade_cooldown_iff rm m a now r, check_trade_ok_iff rm m a now⟩

/-! ## Dedup cache (`src/processor/cache.rs`) -/

/-- `DedupCache` state: signature → insertion instant (milliseconds), plus
the TTL.  The worker constructs it with `DedupCache::new(60_000)`. -/
structure DedupCache where
  cache : List (String × ℚ)
  ttl : ℚ
  deriving Repr

namespace DedupCache

/-- `DedupCache::new`. -/
def new (ttl_ms : Nat) : DedupCache := { cache := [], ttl := (ttl_ms : ℚ) }

/-- `DedupCache::check_and_insert`, with the `Instant::now()` instant made
explicit.  Returns `true` iff the signature is new, and the updated cache. -/
def check_and_insert (c : DedupCache) (signature : String) (now : ℚ) :
    Bool × DedupCache :=
  if (findMap? signature c.cache).isSome then (false, c)
  else (true, { c with cache := insertMap signature now c.cache })

/-- `DedupCache::cleanup`: retain entries with `instant.elapsed() < ttl`,
i.e. `now - inserted < ttl`. -/
def cleanup (c : DedupCache) (now : ℚ) : DedupCache :=
  { c with cache := c.cache.filter (fun p => now - p.2 < c.ttl) }

end DedupCache

/-- An operation applied to the shared dedup cache: either a
`check_and_insert` for a signature (from a processor task) or a periodic
`cleanup` sweep (from the background task in `Worker::run`). -/
inductive CacheOp
  | check (signature : String)
  | sweep
  deriving Repr

/-- One timed cache operation applied to the cache state. -/
def dedupStep (c : DedupCache) : CacheOp × ℚ → DedupCache
  | (.check s, now) => (c.check_and_insert s now).2
  | (.sweep, now) => c.cleanup now

/-- A sequence of timed cache operations applied in order. -/
def dedupRun (c : DedupCache) : List (CacheOp × ℚ) → DedupCache
  | [] => c
  | op :: rest => dedupRun (dedupStep c op) rest

theorem dedupStep_ttl (c : DedupCache) (op : CacheOp × ℚ) :
    (dedupStep c op).ttl = c.ttl := by
  rcases op with ⟨op, now⟩
  cases op with
  | check s =>
    unfold dedupStep DedupCache.check_and_insert
    by_cases h : (findMap? s c.cache).isSome <;> simp [h]
  | sweep => rfl

theorem dedupRun_ttl (ops : List (CacheOp × ℚ)) (c : DedupCache) :
    (dedupRun c ops).ttl = c.ttl := by
  induction ops generalizing c with
  | nil => rfl
  | cons op rest ih => rw [dedupRun, ih, dedupStep_ttl]

/-- Invariant behind the TTL guarantee: once a signature is bound to
instant `τ` in the cache, a run of later operations either keeps that
binding intact or contains a sweep whose instant is at least `τ + ttl`. -/
theorem dedupRun_keeps_or_expired (s : String) (τ bound : ℚ)
    (ops : List (CacheOp × ℚ)) (c : DedupCache)
    (hmem : findMap? s c.cache = some τ)
    (hmono : ∀ p ∈ ops, p.2 ≤ bound) :
    findMap? s (dedupRun c ops).cache = some τ ∨ τ + c.ttl ≤ bound := by
  induction ops generalizing c with
  | nil => exact .inl hmem
  | cons op rest ih =>
    rcases op with ⟨op, now⟩
    have hrest : ∀ p ∈ rest, p.2 ≤ bound := fun p hp => hmono p (List.mem_cons_of_mem _ hp)
    cases op with
    | check s' =>
      rw [dedupRun]
      have hstep : findMap? s (dedupStep c (.check s', now)).cache = some τ := by
        unfold dedupStep DedupCache.check_and_insert
        by_cases hs : (findMap? s' c.cache).isSome
        · simpa [hs] using hmem
        · simp only [hs, if_neg, Bool.false_eq_true, not_false_eq_true, ite_false]
          by_cases hss : s' = s
          · subst hss
            rw [hmem] at hs
            simp at hs
          · simpa [findMap?_insertMap_ne s s' now c.cache hss] using hmem
      have := ih (dedupStep c (.check s', now)) hstep hrest
      rwa [dedupStep_ttl] at this
    | sweep =>
      rw [dedupRun]
      by_cases hlive : now - τ < c.ttl
      · have hstep : findMap? s (dedupStep c (.sweep, now)).cache = some τ := by
          unfold dedupStep DedupCache.cleanup
          exact findMap?_filter s τ _ c.cache hmem (by simpa using hlive)
        have := ih (dedupStep c (.sweep, now)) hstep hrest
        rwa [dedupStep_ttl] at this
      · right
        have hnow : now ≤ bound := hmono (.sweep, now) (List.mem_cons_self _ _)
        have : τ + c.ttl ≤ now := by linarith [not_lt.mp hlive]
        linarith

/-- C4: `check_and_insert(s)` returns `true` iff `s` is absent from the
cache at the moment of the call; on `true` it inserts `s` bound to the
current instant, and on `false` it leaves the cache unchanged.
Consequently two `check_and_insert` calls for the same signature that both
return `true` — with any interleaving of other checks and sweeps between
them whose instants do not exceed the second call's instant — are at least
one TTL apart, so a repeated signature passes the dedup stage at most once
per TTL window. -/
theorem C4_check_and_insert_dedup :
    (∀ (c : DedupCache) (s : String) (now : ℚ),
      ((c.check_and_insert s now).1 = true ↔ findMap? s c.cache = none)
      ∧ ((c.check_and_insert s now).1 = true →
          (c.check_and_insert s now).2.cache = insertMap s now c.cache)
      ∧ ((c.check_and_insert s now).1 = false → (c.check_and_insert s now).2 = c))
    ∧ (∀ (c : DedupCache) (s : String) (τ₁ τ₂ : ℚ) (mid : List (CacheOp × ℚ)),
      (c.check_and_insert s τ₁).1 = true →
      (∀ p ∈ mid, p.2 ≤ τ₂) →
      ((dedupRun (c.check_and_insert s τ₁).2 mid).check_and_insert s τ₂).1 = true →
      τ₂ - τ₁ ≥ c.ttl) := by
  have hbasic : ∀ (c : DedupCache) (s : String) (now : ℚ),
      ((c.check_and_insert s now).1 = true ↔ findMap? s c.cache = none)
      ∧ ((c.check_and_insert s now).1 = true →
          (c.check_and_insert s now).2.cache = insertMap s now c.cache)
      ∧ ((c.check_and_insert s now).1 = false → (c.check_and_insert s now).2 = c) := by
    intro c s now
    unfold DedupCache.check_and_insert
    rcases hf : findMap? s c.cache with _ | t
    · simp
    · simp
  refine ⟨hbasic, ?_⟩
  intro c s τ₁ τ₂ mid h1 hmono h2
  have hnone : findMap? s c.cache = none := ((hbasic c s τ₁).1).mp h1
  have hcache : (c.check_and_insert s τ₁).2.cache = insertMap s τ₁ c.cache :=
    (hbasic c s τ₁).2.1 h1
  have hmem : findMap? s (c.check_and_insert s τ₁).2.cache = some τ₁ := by
    rw [hcache]
    exact findMap?_insertMap_absent s τ₁ c.cache hnone
  have httl : (c.check_and_insert s τ₁).2.ttl = c.ttl := by
    unfold DedupCache.check_and_insert
    rcases hf : findMap? s c.cache with _ | t <;> simp
  rcases dedupRun_keeps_or_expired s τ₁ τ₂ mid (c.check_and_insert s τ₁).2 hmem hmono with
    hkeep | hexp
  · exfalso
    have := ((hbasic (dedupRun (c.check_and_insert s τ₁).2 mid) s τ₂).1).mp h2
    rw [this] at hkeep
    exact Option.noConfusion hkeep
  · rw [httl] at hexp
    linarith

/-- Witness for C4 at a concrete trace: a fresh cache with TTL 60 000 ms,
a check of "sig" at instant 0 returning `true`, a sweep at instant 70 000,
and a second check of "sig" at instant 70 000 returning `true` again —
70 000 − 0 ≥ 60 000. -/
theorem C4_witness :
    ((DedupCache.new 60000).check_and_insert "sig" 0).1 = true
    ∧ (∀ p ∈ ([(CacheOp.sweep, (70000 : ℚ))] : List (CacheOp × ℚ)), p.2 ≤ (70000 : ℚ))
    ∧ ((dedupRun ((DedupCache.new 60000).check_and_insert "sig" 0).2
        [(CacheOp.sweep, 70000)]).check_and_insert "sig" 70000).1 = true
    ∧ (70000 : ℚ) - 0 ≥ (DedupCache.new 60000).ttl := by
  have hfirst : ((DedupCache.new 60000).check_and_insert "sig" 0).1 = true := by
    simp [DedupCache.new, DedupCache.check_and_insert]
  have hsecond : ((dedupRun ((DedupCache.new 60000).check_and_insert "sig" 0).2
      [(CacheOp.sweep, 70000)]).check_and_insert "sig" 70000).1 = true := by
    norm_num [DedupCache.new, DedupCache.check_and_insert, dedupRun, dedupStep,
      DedupCache.cleanup, insertMap, findMap?, List.filter]
  refine ⟨hfirst, by simp, hsecond, ?_⟩
  exact C4_check_and_insert_dedup.2 (DedupCache.new 60000) "sig" 0 70000
    [(CacheOp.sweep, 70000)] hfirst (by simp) hsecond

/-! ## JSON values (`serde_json::Value`)

Numbers are modelled as integers: every number appearing in the claims'
inputs is integral, and `as_u64` on a non-integral number returns `None`
in the source just as a missing field does. -/

inductive Json
  | null
  | bool (b : Bool)
  | num (n : Int)
  | str (s : String)
  | arr (elems : List Json)
  | obj (fields : List (String × Json))

namespace Json

/-- `Value::get(key)` (returns `None` on non-objects). -/
def get (j : Json) (k : String) : Option Json :=
  match j with
  | .obj fields => findMap? k fields
  | _ => none

/-- `Value::as_array`. -/
def asArray (j : Json) : Option (List Json) :=
  match j with
  | .arr elems => some elems
  | _ => none

/-- `Value::as_str`. -/
def asStr (j : Json) : Option String :=
  match j with
  | .str s => some s
  | _ => none

/-- `Value::as_u64`: a number representable as `u64`. -/
def asU64 (j : Json) : Option Nat :=
  match j with
  | .num n => if 0 ≤ n ∧ n < 2 ^ 64 then some n.toNat else none
  | _ => none

/-- `Value::is_null`. -/
def isNull (j : Json) : Bool :=
  match j with
  | .null => true
  | _ => false

end Json

/-- Decimal digit value of a character, if it is one. -/
def charDigit? (c : Char) : Option Nat :=
  if c.toNat < 48 ∨ 57 < c.toNat then none else some (c.toNat - 48)

/-- Value of a digit string (most significant first); `none` on any
non-digit. -/
def digitsVal (acc : Nat) : List Char → Option Nat
  | [] => some acc
  | c :: rest =>
    match charDigit? c with
    | some d => digitsVal (acc * 10 + d) rest
    | none => none

/-- `str::parse::<u64>()`: optional leading `+`, at least one digit, digits
only, value below `2^64` (Rust errors on overflow; the exact value is
computed here and bound-checked, which rejects the same inputs). -/
def parseU64 (s : String) : Option Nat :=
  let cs :=
    match s.toList with
    | '+' :: rest => rest
    | cs => cs
  match cs with
  | [] => none
  | _ =>
    match digitsVal 0 cs with
    | some n => if n < 2 ^ 64 then some n else none
    | none => none

/-- The value of `x as i64` for an arbitrary integer `x` (Rust release-mode
wrapping): the representative of `x` modulo `2^64` in `[-2^63, 2^63)`. -/
def wrapI64 (n : Int) : Int := (n + 2 ^ 63) % 2 ^ 64 - 2 ^ 63

theorem wrapI64_ne_zero (n : Int) (hlo : -(2 ^ 64) < n) (hhi : n < 2 ^ 64)
    (hn : n ≠ 0) : wrapI64 n ≠ 0 := by
  unfold wrapI64
  omega

/-! ## Transaction parser (`src/processor/transaction.rs`) -/

/-- Application error kinds used by the embedded components (a fragment of
`AppError` in `src/error.rs`; `Trading` carries the data interpolated into
the source's message string). -/
inductive AppError
  | Parse (msg : String)
  | Rpc (msg : String)
  | Trading (e : RiskError)
  | Init (msg : String)
  deriving DecidableEq, Repr

/-- `TokenDelta`: `amount_delta` is an `i128` in the source; deltas of two
`u64` amounts always fit. -/
structure TokenDelta where
  mint : String
  amount_delta : Int
  decimals : Nat
  deriving DecidableEq, Repr

/-- `AccountChange`: `sol_delta` is an `i64`; `token_deltas` is a
`HashMap<String, TokenDelta>` modelled as an association list. -/
structure AccountChange where
  sol_delta : Int
  token_deltas : List (String × TokenDelta)
  deriving DecidableEq, Repr

/-- `ParsedTransaction`. -/
structure ParsedTransaction where
  signature : String
  account_changes : List (String × AccountChange)
  deriving DecidableEq, Repr

/-- The empty `AccountChange` produced by `or_default()`. -/
def AccountChange.dflt : AccountChange := ⟨0, []⟩

/-- One element of `message.accountKeys`: a string, or an object with a
string `pubkey` field; anything else contributes no key. -/
def keyOfAccountKey (k : Json) : Option String :=
  match k with
  | .str s => some s
  | .obj fields =>
    match findMap? "pubkey" fields with
    | some (.str pk) => some pk
    | _ => none
  | _ => none

/-- The ordered account-key table: `message.accountKeys` followed by
`meta.loadedAddresses.writable` then `meta.loadedAddresses.readonly`
(strings only). -/
def buildAccountKeys (message meta : Json) : List String :=
  let base := (((message.get "accountKeys").bind Json.asArray).getD []).filterMap keyOfAccountKey
  let loaded := meta.get "loadedAddresses"
  let writable :=
    ((loaded.bind (fun l => (l.get "writable").bind Json.asArray)).getD []).filterMap Json.asStr
  let readonly :=
    ((loaded.bind (fun l => (l.get "readonly").bind Json.asArray)).getD []).filterMap Json.asStr
  base ++ writable ++ readonly

/-- The running `account_changes` map. -/
abbrev Changes : Type := List (String × AccountChange)

/-- One step of the SOL-balance walk: index `i` of the zipped
`preBalances`/`postBalances`; out-of-table indices are skipped
(`continue`), equal balances are skipped, otherwise the entry's
`sol_delta` is set to `(post as i64) - (pre as i64)`. -/
def solStep (account_keys : List String) (i : Nat) (changes : Changes)
    (pq : Json × Json) : Changes :=
  if account_keys.length ≤ i then changes
  else
    let address := account_keys.getD i ""
    let pre_u64 := (pq.1.asU64).getD 0
    let post_u64 := (pq.2.asU64).getD 0
    if pre_u64 ≠ post_u64 then
      let delta := wrapI64 ((post_u64 : Int) - (pre_u64 : Int))
      updateMap address (fun ch => { ch with sol_delta := delta }) AccountChange.dflt changes
    else changes

/-- The SOL-balance walk over the zipped balance lists, indices from `i`. -/
def solGo (account_keys : List String) (i : Nat) :
    List (Json × Json) → Changes → Changes
  | [], changes => changes
  | pq :: rest, changes => solGo account_keys (i + 1) rest (solStep account_keys i changes pq)

/-- Address → mint → `(amount_u64, decimals_u8)`, the intermediate map of
`process_token_balances`. -/
abbrev TokenMap : Type := List (String × List (String × (Nat × Nat)))

/-- Extraction of `(accountIndex, mint, uiTokenAmount)` from one entry of a
token-balance array; `None` models the `if let` guard failing. -/
def tokenEntryData (b : Json) : Option (Nat × String × Json) :=
  match (b.get "accountIndex").bind Json.asU64, (b.get "mint").bind Json.asStr,
      b.get "uiTokenAmount" with
  | some idx, some mint, some amount_obj => some (idx, mint, amount_obj)
  | _, _, _ => none

/-- One step of `process_token_balances`: entries with a too-large
`accountIndex` are skipped; `amount` defaults to `"0"`, `decimals` to `0`
(then truncated `as u8`), unparsable amounts to `0`. -/
def tbStep (account_keys : List String) (map : TokenMap) (b : Json) : TokenMap :=
  match tokenEntryData b with
  | some (idx, mint, amount_obj) =>
    if idx < account_keys.length then
      let address := account_keys.getD idx ""
      let amount := ((amount_obj.get "amount").bind Json.asStr).getD "0"
      let decimals := (((amount_obj.get "decimals").bind Json.asU64).getD 0) % 256
      let amount_u64 := (parseU64 amount).getD 0
      updateMap address (fun m => insertMap mint (amount_u64, decimals) m) [] map
    else map
  | none => map

/-- The fold of `process_token_balances` over a token-balance array. -/
def tbGo (account_keys : List String) : List Json → TokenMap → TokenMap
  | [], map => map
  | b :: rest, map => tbGo account_keys rest (tbStep account_keys map b)

/-- `process_token_balances(key)`. -/
def process_token_balances (account_keys : List String) (meta : Json) (key : String) :
    TokenMap :=
  tbGo account_keys (((meta.get key).bind Json.asArray).getD []) []

/-- Keys of an association list, in iteration order. -/
def keysOf {β : Type} (l : List (String × β)) : List String := l.map Prod.fst

/-- Token-delta computation for one `(address, mint)` pair: zero deltas are
not stored; when decimals disagree the nonzero one wins (`pre` preferred). -/
def tokenDeltaForMint (address : String) (pre_map post_map : List (String × (Nat × Nat)))
    (changes : Changes) (mint : String) : Changes :=
  let pre := (findMap? mint pre_map).getD (0, 0)
  let post := (findMap? mint post_map).getD (0, 0)
  let decimals := if pre.2 ≠ 0 then pre.2 else post.2
  if pre.1 ≠ post.1 then
    let delta := (post.1 : Int) - (pre.1 : Int)
    updateMap address
      (fun ch => { ch with
        token_deltas := insertMap mint ⟨mint, delta, decimals⟩ ch.token_deltas })
      AccountChange.dflt changes
  else changes

/-- Token-delta computation for one address: the union of its pre and post
mints in iteration order. -/
def tokenDeltaForAddress (pre_tokens post_tokens : TokenMap) (changes : Changes)
    (address : String) : Changes :=
  let pre_map := (findMap? address pre_tokens).getD []
  let post_map := (findMap? address post_tokens).getD []
  let all_mints :=
    keysOf pre_map ++ (keysOf post_map).filter (fun k => !(findMap? k pre_map).isSome)
  all_mints.foldl (tokenDeltaForMint address pre_map post_map) changes

/-- The token-delta pass over the union of addresses present in either
token map. -/
def tokenPass (pre_tokens post_tokens : TokenMap) (changes : Changes) : Changes :=
  let all_token_addresses :=
    keysOf pre_tokens ++
      (keysOf post_tokens).filter (fun k => !(findMap? k pre_tokens).isSome)
  all_token_addresses.foldl (tokenDeltaForAddress pre_tokens post_tokens) changes

/-- `parse_transaction` (`src/processor/transaction.rs`). -/
def parse_transaction (signature : String) (value : Json) :
    Except AppError ParsedTransaction :=
  if value.isNull then
    .error (.Parse ("Transaction " ++ signature ++ " not found or pending"))
  else
    match value.get "transaction" with
    | none => .error (.Parse "Missing transaction field")
    | some transaction =>
      match value.get "meta" with
      | none => .error (.Parse "Missing meta field")
      | some meta =>
        match transaction.get "message" with
        | none => .error (.Parse "Missing message field")
        | some message =>
          let account_keys := buildAccountKeys message meta
          let changes1 : Changes :=
            match (meta.get "preBalances").bind Json.asArray,
                (meta.get "postBalances").bind Json.asArray with
            | some pre, some post => solGo account_keys 0 (pre.zip post) []
            | _, _ => []
          let pre_tokens := process_token_balances account_keys meta "preTokenBalances"
          let post_tokens := process_token_balances account_keys meta "postTokenBalances"
          .ok ⟨signature, tokenPass pre_tokens post_tokens changes1⟩

/-! ## Swap detector (`src/processor/swap_detector.rs`) -/

inductive SwapDirection
  | Buy
  | Sell
  deriving DecidableEq, Repr

/-- `SwapEvent`; amounts and price are `f64` in the source, modelled
exactly. -/
structure SwapEvent where
  signature : String
  user : String
  direction : SwapDirection
  mint : String
  amount_in : ℚ
  amount_out : ℚ
  price : ℚ
  deriving DecidableEq, Repr

/-- The token-delta loop of `detect_swap`, in iteration order of the
target's `token_deltas`. -/
def detectGo (signature user : String) (sol_delta : Int) :
    List (String × TokenDelta) → Option SwapEvent
  | [] => none
  | (mint, token_delta) :: rest =>
    if sol_delta < 0 ∧ token_delta.amount_delta > 0 then
      let sol_spent_lamports : Nat := sol_delta.natAbs
      let token_received : ℚ := (token_delta.amount_delta : ℚ) / 10 ^ token_delta.decimals
      let sol_spent : ℚ := (sol_spent_lamports : ℚ) / 1000000000
      if token_received = 0 then detectGo signature user sol_delta rest
      else some ⟨signature, user, .Buy, mint, sol_spent, token_received,
        sol_spent / token_received⟩
    else if sol_delta > 0 ∧ token_delta.amount_delta < 0 then
      let sol_received_lamports : Nat := sol_delta.toNat
      let token_sold : ℚ := (token_delta.amount_delta.natAbs : ℚ) / 10 ^ token_delta.decimals
      let sol_received : ℚ := (sol_received_lamports : ℚ) / 1000000000
      if token_sold = 0 then detectGo signature user sol_delta rest
      else some ⟨signature, user, .Sell, mint, token_sold, sol_received,
        sol_received / token_sold⟩
    else detectGo signature user sol_delta rest

/-- `detect_swap`: analyse only the target wallet's `AccountChange`. -/
def detect_swap (tx : ParsedTransaction) (target_wallet : String) :
    Except AppError (Option SwapEvent) :=
  match findMap? target_wallet tx.account_changes with
  | some change =>
    if change.token_deltas = [] then .ok none
    else .ok (detectGo tx.signature target_wallet change.sol_delta change.token_deltas)
  | none => .ok none

theorem detectGo_skip (signature user : String) (sol_delta : Int)
    (pre l : List (String × TokenDelta))
    (hsol : sol_delta < 0) (hpre : ∀ q ∈ pre, q.2.amount_delta ≤ 0) :
    detectGo signature user sol_delta (pre ++ l) = detectGo signature user sol_delta l := by
  induction pre with
  | nil => rfl
  | cons q rest ih =>
    obtain ⟨mint, td⟩ := q
    have hq : td.amount_delta ≤ 0 := hpre (mint, td) (List.mem_cons_self _ _)
    have hrest : ∀ q ∈ rest, q.2.amount_delta ≤ 0 :=
      fun q hq' => hpre q (List.mem_cons_of_mem _ hq')
    rw [List.cons_append]
    have step : detectGo signature user sol_delta ((mint, td) :: (rest ++ l)) =
        detectGo signature user sol_delta (rest ++ l) := by
      simp only [detectGo]
      rw [if_neg (by rintro ⟨-, h2⟩; omega), if_neg (by rintro ⟨h1, -⟩; omega)]
    rw [step]
    exact ih hrest

/-- The JSON fixture of the Buy-detection scenario (the unit test of
`src/processor/transaction.rs` and §8 scenario 1 of the spec). -/
def buyScenarioJson : Json :=
  .obj
    [("transaction", .obj
      [("message", .obj
        [("accountKeys", .arr
          [.obj [("pubkey", .str "User111111111111111111111111111111111111111")],
           .obj [("pubkey", .str "Pool111111111111111111111111111111111111111")],
           .obj [("pubkey", .str "MintUSDC11111111111111111111111111111111111")]])])]),
     ("meta", .obj
      [("preBalances", .arr [.num 1000000000, .num 5000000000, .num 0]),
       ("postBalances", .arr [.num 900000000, .num 5100000000, .num 0]),
       ("preTokenBalances", .arr
        [.obj [("accountIndex", .num 0),
               ("mint", .str "MintUSDC11111111111111111111111111111111111"),
               ("uiTokenAmount", .obj [("amount", .str "0"), ("decimals", .num 6)])]]),
       ("postTokenBalances", .arr
        [.obj [("accountIndex", .num 0),
               ("mint", .str "MintUSDC11111111111111111111111111111111111"),
               ("uiTokenAmount", .obj [("amount", .str "1000000"), ("decimals", .num 6)])]])])]

/-- C5: whenever the target wallet's change has `sol_delta < 0` and the
first token delta with positive `amount_delta` (in iteration order, all
earlier deltas being non-positive) has a nonzero scaled amount,
`detect_swap` returns a Buy event with `amount_in = |sol_delta|/1e9`,
`amount_out = amount_delta/10^decimals` and `price = amount_in/amount_out`;
in particular the pre/post 1 SOL → 0.9 SOL, 0 → 1 000 000 µUSDC (6
decimals) fixture parses and detects as
`Buy {amount_in = 0.1, amount_out = 1, price = 0.1}`. -/
theorem C5_detect_swap_buy :
    (∀ (tx : ParsedTransaction) (target : String) (change : AccountChange)
      (pre rest : List (String × TokenDelta)) (m : String) (td : TokenDelta),
      findMap? target tx.account_changes = some change →
      change.sol_delta < 0 →
      change.token_deltas = pre ++ (m, td) :: rest →
      (∀ q ∈ pre, q.2.amount_delta ≤ 0) →
      td.amount_delta > 0 →
      (td.amount_delta : ℚ) / 10 ^ td.decimals ≠ 0 →
      detect_swap tx target = .ok (some
        { signature := tx.signature, user := target, direction := .Buy, mint := m,
          amount_in := (change.sol_delta.natAbs : ℚ) / 1000000000,
          amount_out := (td.amount_delta : ℚ) / 10 ^ td.decimals,
          price := ((change.sol_delta.natAbs : ℚ) / 1000000000) /
            ((td.amount_delta : ℚ) / 10 ^ td.decimals) }))
    ∧ (∃ pt, parse_transaction "sig1" buyScenarioJson = .ok pt ∧
        detect_swap pt "User111111111111111111111111111111111111111" = .ok (some
          { signature := "sig1", user := "User111111111111111111111111111111111111111",
            direction := .Buy, mint := "MintUSDC11111111111111111111111111111111111",
            amount_in := 1 / 10, amount_out := 1, price := 1 / 10 })) := by
  constructor
  · intro tx target change pre rest m td hfind hsol hsplit hpre htd hscale
    have hne : change.token_deltas ≠ [] := by
      rw [hsplit]
      exact List.append_ne_nil_of_right_ne_nil _ (by simp)
    have hds : detect_swap tx target =
        .ok (detectGo tx.signature target change.sol_delta change.token_deltas) := by
      unfold detect_swap
      rw [hfind]
      exact if_neg hne
    rw [hds, hsplit, detectGo_skip tx.signature target change.sol_delta pre _ hsol hpre]
    simp only [detectGo]
    rw [if_pos ⟨hsol, htd⟩, if_neg hscale]
  · refine ⟨⟨"sig1",
      [("User111111111111111111111111111111111111111",
        ⟨-100000000, [("MintUSDC11111111111111111111111111111111111",
          ⟨"MintUSDC11111111111111111111111111111111111", 1000000, 6⟩)]⟩),
       ("Pool111111111111111111111111111111111111111", ⟨100000000, []⟩)]⟩, ?_, ?_⟩
    · rfl
    · norm_num [detect_swap, detectGo, findMap?, SwapEvent.mk.injEq]

/-- Witness for C5's general part at a concrete parsed transaction:
0.2 SOL out, 3 USDC-like units (6 decimals) in. -/
theorem C5_witness :
    detect_swap
      ⟨"s", [("W", ⟨-200000000, [("M", ⟨"M", 3000000, 6⟩)]⟩)]⟩ "W" =
      .ok (some
        { signature := "s", user := "W", direction := .Buy, mint := "M",
          amount_in := (((-200000000 : Int).natAbs : ℚ)) / 1000000000,
          amount_out := ((3000000 : Int) : ℚ) / 10 ^ (6 : Nat),
          price := ((((-200000000 : Int).natAbs : ℚ)) / 1000000000) /
            (((3000000 : Int) : ℚ) / 10 ^ (6 : Nat)) }) :=
  C5_detect_swap_buy.1
    ⟨"s", [("W", ⟨-200000000, [("M", ⟨"M", 3000000, 6⟩)]⟩)]⟩ "W"
    ⟨-200000000, [("M", ⟨"M", 3000000, 6⟩)]⟩ [] [] "M" ⟨"M", 3000000, 6⟩
    (by simp [findMap?]) (by norm_num) rfl (by simp) (by norm_num) (by norm_num)

/-! ## C6: no zero delta is ever stored -/

/-- The per-entry invariant of C6: at least one nonzero delta, and every
stored token delta nonzero. -/
def changeInv (ch : AccountChange) : Prop :=
  (ch.sol_delta ≠ 0 ∨ ch.token_deltas ≠ []) ∧
    ∀ q ∈ ch.token_deltas, q.2.amount_delta ≠ 0

/-- The map-wide invariant of C6. -/
def changesInv (chs : Changes) : Prop := ∀ p ∈ chs, changeInv p.2

theorem changesInv_nil : changesInv [] := by
  unfold changesInv
  intro p hp
  simp at hp

theorem forall_updateMap {β : Type} {Q : β → Prop} (k : String) (f : β → β) (d : β)
    (l : List (String × β)) (H1 : ∀ p ∈ l, Q p.2) (Hf : ∀ v, Q v → Q (f v))
    (Hd : Q (f d)) : ∀ p ∈ updateMap k f d l, Q p.2 := by
  induction l with
  | nil =>
    intro p hp
    simp [updateMap] at hp
    subst hp
    exact Hd
  | cons hd tl ih =>
    obtain ⟨a, b⟩ := hd
    intro p hp
    by_cases hak : a = k
    · simp only [updateMap, if_pos hak] at hp
      rcases List.mem_cons.mp hp with rfl | htl
      · exact Hf b (H1 (a, b) (List.mem_cons_self _ _))
      · exact H1 p (List.mem_cons_of_mem _ htl)
    · simp only [updateMap, if_neg hak] at hp
      rcases List.mem_cons.mp hp with rfl | htl
      · exact H1 _ (List.mem_cons_self _ _)
      · exact ih (fun q hq => H1 q (List.mem_cons_of_mem _ hq)) p htl

theorem mem_insertMap {β : Type} (k : String) (v : β) (l : List (String × β)) :
    ∀ p ∈ insertMap k v l, p = (k, v) ∨ p ∈ l := by
  induction l with
  | nil =>
    intro p hp
    simp [insertMap] at hp
    exact .inl hp
  | cons hd tl ih =>
    obtain ⟨a, b⟩ := hd
    intro p hp
    by_cases hak : a = k
    · simp only [insertMap, if_pos hak] at hp
      rcases List.mem_cons.mp hp with rfl | htl
      · exact .inl rfl
      · exact .inr (List.mem_cons_of_mem _ htl)
    · simp only [insertMap, if_neg hak] at hp
      rcases List.mem_cons.mp hp with rfl | htl
      · exact .inr (List.mem_cons_self _ _)
      · rcases ih p htl with h | h
        · exact .inl h
        · exact .inr (List.mem_cons_of_mem _ h)

theorem insertMap_ne_nil {β : Type} (k : String) (v : β) (l : List (String × β)) :
    insertMap k v l ≠ [] := by
  cases l with
  | nil => simp [insertMap]
  | cons hd tl =>
    obtain ⟨a, b⟩ := hd
    by_cases hak : a = k <;> simp [insertMap, hak]

theorem asU64_getD_lt (j : Json) : (j.asU64).getD 0 < 2 ^ 64 := by
  cases j with
  | num n =>
    simp only [Json.asU64]
    split_ifs with h
    · simp only [Option.getD_some]
      omega
    · norm_num
  | null => norm_num [Json.asU64]
  | bool b => norm_num [Json.asU64]
  | str s => norm_num [Json.asU64]
  | arr elems => norm_num [Json.asU64]
  | obj fields => norm_num [Json.asU64]

theorem solStep_inv (account_keys : List String) (i : Nat) (changes : Changes)
    (pq : Json × Json) (h : changesInv changes) :
    changesInv (solStep account_keys i changes pq) := by
  unfold solStep
  by_cases hlen : account_keys.length ≤ i
  · rwa [if_pos hlen]
  · rw [if_neg hlen]
    by_cases hne : (pq.1.asU64).getD 0 ≠ (pq.2.asU64).getD 0
    · rw [if_pos hne]
      have hdelta : wrapI64 (((pq.2.asU64).getD 0 : Int) - ((pq.1.asU64).getD 0 : Int)) ≠ 0 := by
        have h1 := asU64_getD_lt pq.1
        have h2 := asU64_getD_lt pq.2
        apply wrapI64_ne_zero <;> omega
      exact forall_updateMap _ _ _ changes h
        (fun v hv => ⟨.inl hdelta, hv.2⟩) ⟨.inl hdelta, by simp [AccountChange.dflt]⟩
    · rwa [if_neg hne]

theorem solGo_inv (account_keys : List String) (pairs : List (Json × Json)) :
    ∀ (i : Nat) (changes : Changes), changesInv changes →
      changesInv (solGo account_keys i pairs changes) := by
  induction pairs with
  | nil => intro i changes h; exact h
  | cons pq rest ih =>
    intro i changes h
    exact ih (i + 1) _ (solStep_inv account_keys i changes pq h)

theorem tokenDeltaForMint_inv (address : String)
    (pre_map post_map : List (String × (Nat × Nat))) (changes : Changes) (mint : String)
    (h : changesInv changes) :
    changesInv (tokenDeltaForMint address pre_map post_map changes mint) := by
  unfold tokenDeltaForMint
  by_cases hne : ((findMap? mint pre_map).getD (0, 0)).1 ≠ ((findMap? mint post_map).getD (0, 0)).1
  · rw [if_pos hne]
    set pre1 := ((findMap? mint pre_map).getD (0, 0)).1 with hpre1
    set post1 := ((findMap? mint post_map).getD (0, 0)).1 with hpost1
    have hdelta : (post1 : Int) - (pre1 : Int) ≠ 0 := by omega
    set td : TokenDelta :=
      ⟨mint, (post1 : Int) - (pre1 : Int),
        if ((findMap? mint pre_map).getD (0, 0)).2 ≠ 0 then ((findMap? mint pre_map).getD (0, 0)).2
        else ((findMap? mint post_map).getD (0, 0)).2⟩ with htd
    refine forall_updateMap _ _ _ changes h (fun v hv => ⟨?_, ?_⟩) ⟨?_, ?_⟩
    · exact .inr (insertMap_ne_nil mint td v.token_deltas)
    · intro q hq
      rcases mem_insertMap mint td v.token_deltas q hq with rfl | hold
      · exact hdelta
      · exact hv.2 q hold
    · exact .inr (insertMap_ne_nil mint td [])
    · intro q hq
      rcases mem_insertMap mint td [] q hq with rfl | hold
      · exact hdelta
      · simp at hold
  · rwa [if_neg hne]

theorem foldl_tokenDeltaForMint_inv (address : String)
    (pre_map post_map : List (String × (Nat × Nat))) (mints : List String) :
    ∀ changes : Changes, changesInv changes →
      changesInv (mints.foldl (tokenDeltaForMint address pre_map post_map) changes) := by
  induction mints with
  | nil => intro changes h; exact h
  | cons m rest ih =>
    intro changes h
    exact ih _ (tokenDeltaForMint_inv address pre_map post_map changes m h)

theorem tokenDeltaForAddress_inv (pre_tokens post_tokens : TokenMap) (changes : Changes)
    (address : String) (h : changesInv changes) :
    changesInv (tokenDeltaForAddress pre_tokens post_tokens changes address) :=
  foldl_tokenDeltaForMint_inv address _ _ _ changes h

theorem tokenPass_inv (pre_tokens post_tokens : TokenMap) (changes : Changes)
    (h : changesInv changes) : changesInv (tokenPass pre_tokens post_tokens changes) := by
  unfold tokenPass
  generalize (keysOf pre_tokens ++
    (keysOf post_tokens).filter (fun k => !(findMap? k pre_tokens).isSome)) = addrs
  induction addrs generalizing changes with
  | nil => exact h
  | cons a rest ih =>
    exact ih _ (tokenDeltaForAddress_inv pre_tokens post_tokens changes a h)

/-- C6: every successful `parse_transaction` yields only entries with at
least one nonzero delta (`sol_delta ≠ 0` or a non-empty `token_deltas`
map), and every stored `TokenDelta` has `amount_delta ≠ 0`. -/
theorem C6_parse_transaction_nonzero_deltas (sig : String) (v : Json)
    (pt : ParsedTransaction) (h : parse_transaction sig v = .ok pt) :
    ∀ p ∈ pt.account_changes,
      (p.2.sol_delta ≠ 0 ∨ p.2.token_deltas ≠ []) ∧
        ∀ q ∈ p.2.token_deltas, q.2.amount_delta ≠ 0 := by
  unfold parse_transaction at h
  split at h
  · exact absurd h (by simp)
  split at h
  · exact absurd h (by simp)
  next transaction htx =>
  split at h
  · exact absurd h (by simp)
  next meta hmeta =>
  split at h
  · exact absurd h (by simp)
  next message hmsg =>
  rw [Except.ok.injEq] at h
  subst h
  have hsol : changesInv
      (match (meta.get "preBalances").bind Json.asArray,
          (meta.get "postBalances").bind Json.asArray with
        | some pre, some post =>
          solGo (buildAccountKeys message meta) 0 (pre.zip post) []
        | _, _ => ([] : Changes)) := by
    rcases (meta.get "preBalances").bind Json.asArray with _ | pre <;>
      rcases (meta.get "postBalances").bind Json.asArray with _ | post
    · exact changesInv_nil
    · exact changesInv_nil
    · exact changesInv_nil
    · exact solGo_inv _ _ 0 [] changesInv_nil
  exact tokenPass_inv _ _ _ hsol

/-- Witness for C6: the invariant instantiated at the target-wallet entry
and its token delta, read off from the theorem applied to the Buy
fixture. -/
theorem C6_witness :
    ((⟨-100000000, [("MintUSDC11111111111111111111111111111111111",
        ⟨"MintUSDC11111111111111111111111111111111111", 1000000, 6⟩)]⟩ :
      AccountChange).sol_delta ≠ 0 ∨
      (⟨-100000000, [("MintUSDC11111111111111111111111111111111111",
        ⟨"MintUSDC11111111111111111111111111111111111", 1000000, 6⟩)]⟩ :
      AccountChange).token_deltas ≠ [])
    ∧ (⟨"MintUSDC11111111111111111111111111111111111", 1000000, 6⟩ :
        TokenDelta).amount_delta ≠ 0 := by
  have h := C6_parse_transaction_nonzero_deltas "sig1" buyScenarioJson
    ⟨"sig1",
      [("User111111111111111111111111111111111111111",
        ⟨-100000000, [("MintUSDC11111111111111111111111111111111111",
          ⟨"MintUSDC11111111111111111111111111111111111", 1000000, 6⟩)]⟩),
       ("Pool111111111111111111111111111111111111111", ⟨100000000, []⟩)]⟩ (by rfl)
  refine ⟨(h ("User111111111111111111111111111111111111111",
      ⟨-100000000, [("MintUSDC11111111111111111111111111111111111",
        ⟨"MintUSDC11111111111111111111111111111111111", 1000000, 6⟩)]⟩)
      (by simp)).1, ?_⟩
  exact (h ("User111111111111111111111111111111111111111",
      ⟨-100000000, [("MintUSDC11111111111111111111111111111111111",
        ⟨"MintUSDC11111111111111111111111111111111111", 1000000, 6⟩)]⟩)
      (by simp)).2
    ("MintUSDC11111111111111111111111111111111111",
      ⟨"MintUSDC11111111111111111111111111111111111", 1000000, 6⟩) (by simp)

/-! ## C10: out-of-range balance indices are skipped, never fatal -/

theorem solStep_out_of_range (keys : List String) (i : Nat) (changes : Changes)
    (pq : Json × Json) (h : keys.length ≤ i) : solStep keys i changes pq = changes := by
  unfold solStep
  rw [if_pos h]

theorem solGo_out_of_range (keys : List String) (pairs : List (Json × Json)) :
    ∀ i, keys.length ≤ i → ∀ changes, solGo keys i pairs changes = changes := by
  induction pairs with
  | nil => intro i h changes; rfl
  | cons pq rest ih =>
    intro i h changes
    show solGo keys (i + 1) rest (solStep keys i changes pq) = changes
    rw [solStep_out_of_range keys i changes pq h]
    exact ih (i + 1) (by omega) changes

theorem solGo_take (keys : List String) (pairs : List (Json × Json)) :
    ∀ i changes, solGo keys i pairs changes =
      solGo keys i (pairs.take (keys.length - i)) changes := by
  induction pairs with
  | nil => intro i changes; rw [List.take_nil]
  | cons pq rest ih =>
    intro i changes
    by_cases h : keys.length ≤ i
    · have h0 : keys.length - i = 0 := by omega
      rw [h0, List.take_zero, solGo_out_of_range keys (pq :: rest) i h changes]
      rfl
    · have h1 : keys.length - i = (keys.length - (i + 1)) + 1 := by omega
      rw [h1, List.take_succ_cons]
      show solGo keys (i + 1) rest (solStep keys i changes pq) =
        solGo keys (i + 1) (rest.take (keys.length - (i + 1))) (solStep keys i changes pq)
      exact ih (i + 1) _

theorem tbStep_out_of_range (keys : List String) (map : TokenMap) (b : Json)
    (idx : Nat) (mint : String) (obj : Json)
    (hdata : tokenEntryData b = some (idx, mint, obj)) (h : keys.length ≤ idx) :
    tbStep keys map b = map := by
  unfold tbStep
  rw [hdata]
  exact if_neg (by omega)

theorem tbGo_append (keys : List String) (l1 l2 : List Json) :
    ∀ map, tbGo keys (l1 ++ l2) map = tbGo keys l2 (tbGo keys l1 map) := by
  induction l1 with
  | nil => intro map; rfl
  | cons b rest ih =>
    intro map
    show tbGo keys (rest ++ l2) (tbStep keys map b) = _
    rw [ih (tbStep keys map b)]
    rfl

theorem tbGo_skip_entry (keys : List String) (l1 l2 : List Json) (b : Json)
    (map : TokenMap) (idx : Nat) (mint : String) (obj : Json)
    (hdata : tokenEntryData b = some (idx, mint, obj)) (hidx : keys.length ≤ idx) :
    tbGo keys (l1 ++ b :: l2) map = tbGo keys (l1 ++ l2) map := by
  rw [tbGo_append keys l1 (b :: l2), tbGo_append keys l1 l2]
  show tbGo keys l2 (tbStep keys (tbGo keys l1 map) b) = _
  rw [tbStep_out_of_range keys (tbGo keys l1 map) b idx mint obj hdata hidx]

theorem parse_transaction_ok_iff (sig : String) (v : Json) :
    (∃ pt, parse_transaction sig v = .ok pt) ↔
      (v.isNull = false ∧ ∃ t, v.get "transaction" = some t ∧
        (v.get "meta").isSome = true ∧ (t.get "message").isSome = true) := by
  constructor
  · rintro ⟨pt, h⟩
    unfold parse_transaction at h
    split at h
    · exact absurd h (by simp)
    next hnull =>
    split at h
    · exact absurd h (by simp)
    next transaction htx =>
    split at h
    · exact absurd h (by simp)
    next meta hmeta =>
    split at h
    · exact absurd h (by simp)
    next message hmsg =>
    exact ⟨Bool.not_eq_true _ ▸ (by simpa using hnull), transaction, htx,
      by simp [hmeta], by simp [hmsg]⟩
  · rintro ⟨hnull, t, htx, hmeta, hmsg⟩
    obtain ⟨meta, hm⟩ := Option.isSome_iff_exists.mp hmeta
    obtain ⟨message, hmg⟩ := Option.isSome_iff_exists.mp hmsg
    suffices hs : (parse_transaction sig v).toOption.isSome = true by
      rcases hp : parse_transaction sig v with e | pt
      · rw [hp] at hs
        simp [Except.toOption] at hs
      · exact ⟨pt, rfl⟩
    simp [parse_transaction, hnull, htx, hm, hmg, Except.toOption]

/-- C10: `parse_transaction` never fails because a balance index falls
outside the account-key table — it succeeds exactly when the envelope is
non-null and has `transaction`, `meta` and `transaction.message` fields;
the SOL-balance walk only reads the first `len(account_keys)` zipped
balance entries (out-of-range indices are skipped); and a token-balance
entry whose `accountIndex` is at or beyond the table length is a no-op of
the token-map fold, all other entries being processed as without it. -/
theorem C10_parse_transaction_index_safety :
    (∀ (sig : String) (v : Json),
      (∃ pt, parse_transaction sig v = .ok pt) ↔
        (v.isNull = false ∧ ∃ t, v.get "transaction" = some t ∧
          (v.get "meta").isSome = true ∧ (t.get "message").isSome = true))
    ∧ (∀ (keys : List String) (pairs : List (Json × Json)) (changes : Changes),
        solGo keys 0 pairs changes = solGo keys 0 (pairs.take keys.length) changes)
    ∧ (∀ (keys : List String) (l1 l2 : List Json) (b : Json) (map : TokenMap)
        (idx : Nat) (mint : String) (obj : Json),
        tokenEntryData b = some (idx, mint, obj) → keys.length ≤ idx →
        tbGo keys (l1 ++ b :: l2) map = tbGo keys (l1 ++ l2) map) :=
  ⟨parse_transaction_ok_iff,
    fun keys pairs changes => by simpa using solGo_take keys pairs 0 changes,
    fun keys l1 l2 b map idx mint obj hdata hidx =>
      tbGo_skip_entry keys l1 l2 b map idx mint obj hdata hidx⟩

/-- Witness for C10 at concrete inputs: a null envelope does not parse; an
extra fourth balance pair beyond a three-key table does not change the SOL
walk; a token entry with `accountIndex = 7` against a one-key table is
dropped from the fold. -/
theorem C10_witness :
    (¬ ∃ pt, parse_transaction "s" Json.null = .ok pt)
    ∧ solGo ["k1"] 0 [(.num 1, .num 2), (.num 3, .num 4)] [] =
        solGo ["k1"] 0 [(.num 1, .num 2)] []
    ∧ tbGo ["k1"]
        [Json.obj [("accountIndex", .num 7), ("mint", .str "M"),
          ("uiTokenAmount", .obj [])]] [] =
      tbGo ["k1"] [] [] := by
  refine ⟨?_, ?_, ?_⟩
  · intro hex
    have := (C10_parse_transaction_index_safety.1 "s" Json.null).mp hex
    simpa [Json.isNull] using this.1
  · simpa using C10_parse_transaction_index_safety.2.1 ["k1"]
      [(.num 1, .num 2), (.num 3, .num 4)] []
  · exact C10_parse_transaction_index_safety.2.2 ["k1"] [] []
      (Json.obj [("accountIndex", .num 7), ("mint", .str "M"),
        ("uiTokenAmount", .obj [])]) [] 7 "M" (.obj []) rfl (by norm_num)

/-! ## Processor fetch loop (`src/processor/worker.rs`, `process_signature`)

The RPC effect is an oracle giving the outcome of each `get_transaction`
call (0-indexed attempt number). -/

def MAX_RETRIES : Nat := 10

/-- The loop-exit test of one fetch attempt: an `Ok` result that is not
JSON null.  An `Err` is a failed attempt and an `Ok(null)` is "not yet
indexed"; both merely consume an attempt. -/
def fetchSuccess : Except AppError Json → Bool
  | .ok v => !v.isNull
  | .error _ => false

/-- Trace of the fetch loop: final `tx_value`, number of
`get_transaction` calls, and the sleep durations (ms) in order. -/
structure FetchTrace where
  tx_value : Json
  calls : Nat
  sleeps_ms : List Nat

/-- The `while attempts < MAX_RETRIES` loop of `process_signature`:
attempt, then on non-exit increment and sleep 300 ms only if another
attempt remains. -/
def fetchGo (oracle : Nat → Except AppError Json) (attempts : Nat) (sleeps : List Nat) :
    FetchTrace :=
  if attempts < MAX_RETRIES then
    match oracle attempts with
    | .ok val =>
      if !val.isNull then ⟨val, attempts + 1, sleeps⟩
      else if attempts + 1 < MAX_RETRIES then
        fetchGo oracle (attempts + 1) (sleeps ++ [300])
      else ⟨Json.null, attempts + 1, sleeps⟩
    | .error _ =>
      if attempts + 1 < MAX_RETRIES then
        fetchGo oracle (attempts + 1) (sleeps ++ [300])
      else ⟨Json.null, attempts + 1, sleeps⟩
  else ⟨Json.null, attempts, sleeps⟩
  termination_by MAX_RETRIES - attempts

/-- The fetch stage of `process_signature`: run the loop from attempt 0,
then fail with the not-found error if `tx_value` is still null. -/
def fetch_transaction (oracle : Nat → Except AppError Json) (signature : String) :
    Except AppError Json × Nat × List Nat :=
  (if (fetchGo oracle 0 []).tx_value.isNull then
      .error (.Parse ("Transaction " ++ signature ++ " not found after 10 retries"))
    else .ok (fetchGo oracle 0 []).tx_value,
   (fetchGo oracle 0 []).calls, (fetchGo oracle 0 []).sleeps_ms)

theorem fetchGo_eq_exit (oracle : Nat → Except AppError Json) (a : Nat)
    (sleeps : List Nat) (val : Json) (h : a < MAX_RETRIES)
    (ho : oracle a = .ok val) (hnn : val.isNull = false) :
    fetchGo oracle a sleeps = ⟨val, a + 1, sleeps⟩ := by
  conv_lhs => rw [fetchGo.eq_def]
  rw [if_pos h, ho]
  simp [hnn]

theorem fetchGo_eq_ok_null (oracle : Nat → Except AppError Json) (a : Nat)
    (sleeps : List Nat) (val : Json) (h : a < MAX_RETRIES)
    (ho : oracle a = .ok val) (hnull : val.isNull = true) :
    fetchGo oracle a sleeps =
      if a + 1 < MAX_RETRIES then fetchGo oracle (a + 1) (sleeps ++ [300])
      else ⟨Json.null, a + 1, sleeps⟩ := by
  conv_lhs => rw [fetchGo.eq_def]
  rw [if_pos h, ho]
  simp [hnull]

theorem fetchGo_eq_err (oracle : Nat → Except AppError Json) (a : Nat)
    (sleeps : List Nat) (e : AppError) (h : a < MAX_RETRIES)
    (ho : oracle a = .error e) :
    fetchGo oracle a sleeps =
      if a + 1 < MAX_RETRIES then fetchGo oracle (a + 1) (sleeps ++ [300])
      else ⟨Json.null, a + 1, sleeps⟩ := by
  conv_lhs => rw [fetchGo.eq_def]
  rw [if_pos h, ho]

theorem fetchGo_eq_retry (oracle : Nat → Except AppError Json) (a : Nat)
    (sleeps : List Nat) (h : a < MAX_RETRIES)
    (hfail : fetchSuccess (oracle a) = false) :
    fetchGo oracle a sleeps =
      if a + 1 < MAX_RETRIES then fetchGo oracle (a + 1) (sleeps ++ [300])
      else ⟨Json.null, a + 1, sleeps⟩ := by
  rcases ho : oracle a with e | val
  · exact fetchGo_eq_err oracle a sleeps e h ho
  · rw [ho] at hfail
    unfold fetchSuccess at hfail
    rw [Bool.not_eq_false'] at hfail
    exact fetchGo_eq_ok_null oracle a sleeps val h ho hfail

theorem fetchGo_success (oracle : Nat → Except AppError Json) (v : Json)
    (hnn : v.isNull = false) :
    ∀ (d a : Nat) (sleeps : List Nat), a + d < MAX_RETRIES → oracle (a + d) = .ok v →
      (∀ j, a ≤ j → j < a + d → fetchSuccess (oracle j) = false) →
      fetchGo oracle a sleeps = ⟨v, a + d + 1, sleeps ++ List.replicate d 300⟩ := by
  intro d
  induction d with
  | zero =>
    intro a sleeps hlt hv hprev
    rw [Nat.add_zero] at hlt hv
    rw [fetchGo_eq_exit oracle a sleeps v hlt hv hnn]
    simp
  | succ d ih =>
    intro a sleeps hlt hv hprev
    have hfail : fetchSuccess (oracle a) = false := hprev a le_rfl (by omega)
    have hnext : a + 1 < MAX_RETRIES := by omega
    rw [fetchGo_eq_retry oracle a sleeps (by omega) hfail, if_pos hnext]
    have hrec := ih (a + 1) (sleeps ++ [300]) (by omega)
      (by rw [show a + 1 + d = a + (d + 1) by omega]; exact hv)
      (fun j hj1 hj2 => hprev j (by omega) (by omega))
    rw [hrec]
    simp only [FetchTrace.mk.injEq, List.append_assoc, List.singleton_append,
      true_and]
    constructor
    · omega
    · rw [← List.replicate_succ]

theorem fetchGo_exhaust (oracle : Nat → Except AppError Json) :
    ∀ (d a : Nat) (sleeps : List Nat), a + d = MAX_RETRIES → 0 < d →
      (∀ j, a ≤ j → j < MAX_RETRIES → fetchSuccess (oracle j) = false) →
      fetchGo oracle a sleeps =
        ⟨Json.null, MAX_RETRIES, sleeps ++ List.replicate (d - 1) 300⟩ := by
  intro d
  induction d with
  | zero => intro a sleeps h h0; omega
  | succ d ih =>
    intro a sleeps hsum hpos hprev
    have hfail : fetchSuccess (oracle a) = false := hprev a le_rfl (by omega)
    rw [fetchGo_eq_retry oracle a sleeps (by omega) hfail]
    by_cases hd : d = 0
    · subst hd
      rw [if_neg (by omega)]
      simp only [FetchTrace.mk.injEq]
      refine ⟨trivial, by omega, by simp⟩
    · rw [if_pos (by omega)]
      have hrec := ih (a + 1) (sleeps ++ [300]) (by omega) (by omega)
        (fun j hj1 hj2 => hprev j (by omega) hj2)
      rw [hrec]
      simp only [FetchTrace.mk.injEq, List.append_assoc, List.singleton_append,
        true_and]
      have hlist : (300 : Nat) :: List.replicate (d - 1) 300 =
          List.replicate (d + 1 - 1) 300 := by
        rw [show d + 1 - 1 = (d - 1) + 1 by omega, List.replicate_succ]
      rw [hlist]

theorem fetchGo_calls_le (oracle : Nat → Except AppError Json) :
    ∀ (d a : Nat) (sleeps : List Nat), MAX_RETRIES ≤ a + d →
      (fetchGo oracle a sleeps).calls ≤ max MAX_RETRIES a := by
  intro d
  induction d with
  | zero =>
    intro a sleeps hge
    unfold fetchGo
    by_cases ha : a < MAX_RETRIES
    · omega
    · rw [if_neg ha]
      simp only
      omega
  | succ d ih =>
    intro a sleeps hge
    by_cases ha : a < MAX_RETRIES
    · rcases ho : oracle a with e | val
      · rw [fetchGo_eq_err oracle a sleeps e ha ho]
        by_cases hnext : a + 1 < MAX_RETRIES
        · rw [if_pos hnext]
          have := ih (a + 1) (sleeps ++ [300]) (by omega)
          omega
        · rw [if_neg hnext]
          simp only
          omega
      · by_cases hnull : val.isNull = true
        · rw [fetchGo_eq_ok_null oracle a sleeps val ha ho hnull]
          by_cases hnext : a + 1 < MAX_RETRIES
          · rw [if_pos hnext]
            have := ih (a + 1) (sleeps ++ [300]) (by omega)
            omega
          · rw [if_neg hnext]
            simp only
            omega
        · rw [Bool.not_eq_true] at hnull
          rw [fetchGo_eq_exit oracle a sleeps val ha ho hnull]
          simp only
          omega
    · unfold fetchGo
      rw [if_neg ha]
      simp only
      omega

/-- C8: the fetch loop makes at most 10 `get_transaction` calls; if the
first `i` attempts are non-exiting (errors or `Ok(null)`) and attempt `i`
(`i < 10`, 0-indexed) returns a non-null value `v`, the stage returns
`Ok v` after `i + 1` calls with `i` sleeps of 300 ms; if all 10 attempts
are non-exiting, the stage fails with the not-found parse error after
exactly 10 calls and 9 sleeps of 300 ms. -/
theorem C8_fetch_loop (oracle : Nat → Except AppError Json) (signature : String) :
    ((fetch_transaction oracle signature).2.1 ≤ 10)
    ∧ (∀ (i : Nat) (v : Json), i < 10 → oracle i = .ok v → v.isNull = false →
        (∀ j, j < i → fetchSuccess (oracle j) = false) →
        fetch_transaction oracle signature = (.ok v, i + 1, List.replicate i 300))
    ∧ ((∀ j, j < 10 → fetchSuccess (oracle j) = false) →
        fetch_transaction oracle signature =
          (.error (.Parse ("Transaction " ++ signature ++ " not found after 10 retries")),
            10, List.replicate 9 300)) := by
  refine ⟨?_, ?_, ?_⟩
  · unfold fetch_transaction
    simpa using fetchGo_calls_le oracle MAX_RETRIES 0 [] (by omega)
  · intro i v hi hv hnn hprev
    unfold fetch_transaction
    rw [fetchGo_success oracle v hnn i 0 [] (by unfold MAX_RETRIES; omega)
      (by simpa using hv) (fun j hj1 hj2 => hprev j (by omega))]
    simp [hnn]
  · intro hall
    unfold fetch_transaction
    rw [fetchGo_exhaust oracle 10 0 [] (by rfl) (by omega)
      (fun j hj1 hj2 => hall j (by unfold MAX_RETRIES at hj2; omega))]
    simp [Json.isNull]
    rfl

/-- Witness for C8: an oracle that errors once, returns `Ok(null)` once,
then returns a non-null value on its third call: the stage returns that
value after 3 calls and 2 sleeps of 300 ms. -/
theorem C8_witness :
    fetch_transaction
      (fun i => if i = 0 then .error (.Rpc "down")
        else if i = 1 then .ok Json.null else .ok (.num 5)) "s" =
      (.ok (.num 5), 3, List.replicate 2 300) :=
  (C8_fetch_loop (fun i => if i = 0 then .error (.Rpc "down")
      else if i = 1 then .ok Json.null else .ok (.num 5)) "s").2.1 2 (.num 5)
    (by omega) (by norm_num) (by rfl)
    (by
      intro j hj
      interval_cases j <;> rfl)

/-! ## Send retry (`src/http/race_client.rs`, `send_transaction_with_retry`)

The broadcast effect is an oracle giving the outcome of each
`send_transaction` call (0-indexed attempt number). -/

/-- The retry loop: attempt, return the signature on success; on failure
increment, return the error once `retries` attempts were made, otherwise
sleep `50 · 2^(attempt−1)` ms (of the 1-indexed attempt just failed, i.e.
`50 · 2^a` for 0-indexed `a`) and loop. -/
def send_retry_go (oracle : Nat → Except AppError String) (retries : Nat) (attempt : Nat)
    (sleeps : List Nat) : Except AppError String × Nat × List Nat :=
  match oracle attempt with
  | .ok sig => (.ok sig, attempt + 1, sleeps)
  | .error e =>
    if retries ≤ attempt + 1 then (.error e, attempt + 1, sleeps)
    else send_retry_go oracle retries (attempt + 1) (sleeps ++ [50 * 2 ^ attempt])
  termination_by retries - attempt

/-- `RaceClient::send_transaction_with_retry(tx, retries)`, returning the
result together with the number of `send_transaction` calls and the sleep
durations (ms) in order. -/
def send_transaction_with_retry (oracle : Nat → Except AppError String) (retries : Nat) :
    Except AppError String × Nat × List Nat :=
  send_retry_go oracle retries 0 []

theorem send_retry_go_eq_ok (oracle : Nat → Except AppError String) (retries a : Nat)
    (sleeps : List Nat) (s : String) (ho : oracle a = .ok s) :
    send_retry_go oracle retries a sleeps = (.ok s, a + 1, sleeps) := by
  unfold send_retry_go
  rw [ho]

theorem send_retry_go_eq_err (oracle : Nat → Except AppError String) (retries a : Nat)
    (sleeps : List Nat) (e : AppError) (ho : oracle a = .error e) :
    send_retry_go oracle retries a sleeps =
      if retries ≤ a + 1 then (.error e, a + 1, sleeps)
      else send_retry_go oracle retries (a + 1) (sleeps ++ [50 * 2 ^ a]) := by
  conv_lhs => rw [send_retry_go.eq_def]
  rw [ho]

theorem send_retry_go_success (oracle : Nat → Except AppError String) (s : String) :
    ∀ (d a : Nat) (retries : Nat) (sleeps : List Nat), a + d + 1 ≤ retries →
      oracle (a + d) = .ok s →
      (∀ j, a ≤ j → j < a + d → ∃ e, oracle j = .error e) →
      send_retry_go oracle retries a sleeps =
        (.ok s, a + d + 1, sleeps ++ ((List.range d).map (fun j => 50 * 2 ^ (a + j)))) := by
  intro d
  induction d with
  | zero =>
    intro a retries sleeps hle hv hprev
    rw [Nat.add_zero] at hv
    rw [send_retry_go_eq_ok oracle retries a sleeps s hv]
    simp
  | succ d ih =>
    intro a retries sleeps hle hv hprev
    obtain ⟨e, he⟩ := hprev a le_rfl (by omega)
    rw [send_retry_go_eq_err oracle retries a sleeps e he, if_neg (by omega)]
    have hrec := ih (a + 1) retries (sleeps ++ [50 * 2 ^ a]) (by omega)
      (by rw [show a + 1 + d = a + (d + 1) by omega]; exact hv)
      (fun j hj1 hj2 => hprev j (by omega) (by omega))
    rw [hrec]
    have hfun : ((fun j => 50 * 2 ^ (a + j)) ∘ Nat.succ) = (fun j => 50 * 2 ^ (a + 1 + j)) := by
      funext j
      simp only [Function.comp_apply]
      rw [Nat.succ_eq_add_one, show a + (j + 1) = a + 1 + j from by omega]
    rw [List.range_succ_eq_map, List.map_cons, List.map_map, hfun]
    simp only [Prod.mk.injEq, List.append_assoc, List.singleton_append, true_and,
      Nat.add_zero]
    exact ⟨by omega, trivial⟩

theorem send_retry_go_exhaust (oracle : Nat → Except AppError String) (elast : AppError) :
    ∀ (d a : Nat) (retries : Nat) (sleeps : List Nat), a + d + 1 = retries →
      (∀ j, a ≤ j → j < retries → ∃ e, oracle j = .error e) →
      oracle (retries - 1) = .error elast →
      send_retry_go oracle retries a sleeps =
        (.error elast, retries,
          sleeps ++ ((List.range d).map (fun j => 50 * 2 ^ (a + j)))) := by
  intro d
  induction d with
  | zero =>
    intro a retries sleeps hsum hprev hlast
    have ha : retries - 1 = a := by omega
    rw [ha] at hlast
    rw [send_retry_go_eq_err oracle retries a sleeps elast hlast, if_pos (by omega)]
    simp only [List.range_zero, List.map_nil, List.append_nil, Prod.mk.injEq, true_and]
    exact ⟨by omega, trivial⟩
  | succ d ih =>
    intro a retries sleeps hsum hprev hlast
    obtain ⟨e, he⟩ := hprev a le_rfl (by omega)
    rw [send_retry_go_eq_err oracle retries a sleeps e he, if_neg (by omega)]
    have hrec := ih (a + 1) retries (sleeps ++ [50 * 2 ^ a]) (by omega)
      (fun j hj1 hj2 => hprev j (by omega) hj2) hlast
    rw [hrec]
    have hfun : ((fun j => 50 * 2 ^ (a + j)) ∘ Nat.succ) = (fun j => 50 * 2 ^ (a + 1 + j)) := by
      funext j
      simp only [Function.comp_apply]
      rw [Nat.succ_eq_add_one, show a + (j + 1) = a + 1 + j from by omega]
    rw [List.range_succ_eq_map, List.map_cons, List.map_map, hfun]
    simp only [Prod.mk.injEq, List.append_assoc, List.singleton_append, true_and,
      Nat.add_zero]

theorem send_retry_go_calls_le (oracle : Nat → Except AppError String) :
    ∀ (d a retries : Nat) (sleeps : List Nat), retries ≤ a + d + 1 →
      (send_retry_go oracle retries a sleeps).2.1 ≤ max (a + 1) retries := by
  intro d
  induction d with
  | zero =>
    intro a retries sleeps hle
    rcases ho : oracle a with e | s
    · rw [send_retry_go_eq_err oracle retries a sleeps e ho, if_pos (by omega)]
      simp only
      omega
    · rw [send_retry_go_eq_ok oracle retries a sleeps s ho]
      simp only
      omega
  | succ d ih =>
    intro a retries sleeps hle
    rcases ho : oracle a with e | s
    · rw [send_retry_go_eq_err oracle retries a sleeps e ho]
      by_cases hstop : retries ≤ a + 1
      · rw [if_pos hstop]
        simp only
        omega
      · rw [if_neg hstop]
        have := ih (a + 1) retries (sleeps ++ [50 * 2 ^ a]) (by omega)
        omega
    · rw [send_retry_go_eq_ok oracle retries a sleeps s ho]
      simp only
      omega

/-- C9 counterexample: with `retries = 0` and a failing oracle the loop
still makes one `send_transaction` call, so "at most k attempts" fails at
`k = 0`. -/
theorem C9_counterexample :
    (send_transaction_with_retry (fun _ => .error (.Rpc "boom")) 0).2.1 = 1
    ∧ ¬ ((send_transaction_with_retry (fun _ => .error (.Rpc "boom")) 0).2.1 ≤ 0) := by
  have h : send_transaction_with_retry (fun _ => .error (.Rpc "boom")) 0 =
      (.error (.Rpc "boom"), 1, []) := by
    unfold send_transaction_with_retry
    rw [send_retry_go_eq_err _ 0 0 [] _ rfl, if_pos (by omega)]
  rw [h]
  exact ⟨rfl, by decide⟩

/-- C9 (amended: for every `k ≥ 1`): `send_with_retry(tx, k)` makes at most
`k` `send_transaction` attempts; the first success at 0-indexed attempt
`i` is returned immediately after `i + 1` calls with sleeps
`50·2⁰, …, 50·2^(i−1)` ms between consecutive attempts; if all `k`
attempts fail, the error of the last attempt is returned after exactly `k`
calls with only `k − 1` sleeps (none after the final failure).  (For
`k = 0` the code still makes one attempt, see the counterexample.) -/
theorem C9_send_with_retry (oracle : Nat → Except AppError String) (k : Nat) (hk : 1 ≤ k) :
    ((send_transaction_with_retry oracle k).2.1 ≤ k)
    ∧ (∀ (i : Nat) (s : String), i < k → oracle i = .ok s →
        (∀ j, j < i → ∃ e, oracle j = .error e) →
        send_transaction_with_retry oracle k =
          (.ok s, i + 1, (List.range i).map (fun j => 50 * 2 ^ j)))
    ∧ (∀ e, (∀ j, j < k → ∃ e', oracle j = .error e') → oracle (k - 1) = .error e →
        send_transaction_with_retry oracle k =
          (.error e, k, (List.range (k - 1)).map (fun j => 50 * 2 ^ j))) := by
  refine ⟨?_, ?_, ?_⟩
  · have := send_retry_go_calls_le oracle k 0 k [] (by omega)
    unfold send_transaction_with_retry
    omega
  · intro i s hi hv hprev
    unfold send_transaction_with_retry
    have := send_retry_go_success oracle s i 0 k [] (by omega) (by simpa using hv)
      (fun j hj1 hj2 => hprev j (by omega))
    simpa using this
  · intro e hall hlast
    unfold send_transaction_with_retry
    have := send_retry_go_exhaust oracle e (k - 1) 0 k [] (by omega)
      (fun j hj1 hj2 => hall j (by omega)) hlast
    simpa using this

/-- Witness for C9 at a concrete run: three allowed attempts, failure then
success: the signature of attempt 1 (0-indexed) is returned after 2 calls
and one 50 ms sleep. -/
theorem C9_witness :
    send_transaction_with_retry
      (fun i => if i = 0 then .error (.Rpc "x") else .ok "sig") 3 =
      (.ok "sig", 2, [50]) := by
  have := (C9_send_with_retry
    (fun i => if i = 0 then .error (.Rpc "x") else .ok "sig") 3 (by omega)).2.1 1 "sig"
    (by omega) (by norm_num)
    (by
      intro j hj
      interval_cases j
      exact ⟨.Rpc "x", rfl⟩)
  simpa using this

/-! ## Configuration (`src/config.rs`) -/

/-- The numeric trading fragment of `Config`. -/
structure Config where
  buy_amount_sol : ℚ
  mirror_min_sol : ℚ
  mirror_max_sol : ℚ
  min_trade_amount_sol : ℚ
  max_trade_amount_sol : ℚ
  slippage_bps : Nat
  cooldown_seconds : Nat

/-- `Config::load`, restricted to the fields above.  `env` is the process
environment with numeric values already parsed; `none` covers both an
unset and an unparsable variable — in the source
`env::var(k).unwrap_or(d).parse().unwrap_or(d)` falls back to the same
default in both cases.  `min_trade_amount_sol`/`max_trade_amount_sol` are
the compatibility mappings of `MIRROR_MIN_SOL`/`MIRROR_MAX_SOL`;
`slippage_bps` and `cooldown_seconds` are hardcoded. -/
def Config.load (env : String → Option ℚ) : Config :=
  { buy_amount_sol := (env "BUY_AMOUNT_SOL").getD (1 / 100)
    mirror_min_sol := (env "MIRROR_MIN_SOL").getD (1 / 1000)
    mirror_max_sol := (env "MIRROR_MAX_SOL").getD 1
    min_trade_amount_sol := (env "MIRROR_MIN_SOL").getD (1 / 1000)
    max_trade_amount_sol := (env "MIRROR_MAX_SOL").getD 1
    slippage_bps := 50
    cooldown_seconds := 60 }

/-! ## Trading engine (`src/trading/engine.rs`) -/

def SOL_MINT : String := "So11111111111111111111111111111111111111112"

def LAMPORTS_PER_SOL : Nat := 1000000000

/-- `x as u64` on an `f64` value: truncation toward zero, saturating at
the `u64` range. -/
def castF64toU64 (q : ℚ) : Nat := if q ≤ 0 then 0 else min (2 ^ 64 - 1) ⌊q⌋.toNat

/-- The fields of Jupiter's `QuoteResponse` the engine threads through
(the remaining fields are never read by the engine). -/
structure QuoteResponse where
  input_mint : String
  in_amount : String
  output_mint : String
  out_amount : String
  deriving DecidableEq, Repr

/-- Jupiter's `SwapResponse`. -/
structure SwapResponse where
  swap_transaction : String
  last_valid_block_height : Nat
  deriving DecidableEq, Repr

/-- The atomic counters of `Stats` (`src/analytics/stats.rs`). -/
structure Stats where
  total_swaps_detected : Nat
  successful_trades : Nat
  failed_trades : Nat
  last_processing_latency_ms : Nat
  last_trade_latency_ms : Nat
  deriving DecidableEq, Repr

namespace Stats

/-- `Stats::new`. -/
def new : Stats := ⟨0, 0, 0, 0, 0⟩

/-- `Stats::inc_successful_trades`. -/
def inc_successful_trades (s : Stats) : Stats :=
  { s with successful_trades := s.successful_trades + 1 }

/-- `Stats::inc_failed_trades`. -/
def inc_failed_trades (s : Stats) : Stats :=
  { s with failed_trades := s.failed_trades + 1 }

/-- `Stats::update_trade_latency`. -/
def update_trade_latency (s : Stats) (ms : Nat) : Stats :=
  { s with last_trade_latency_ms := ms }

end Stats

/-- Outcomes of the RPC/HTTP effects during one `execute_trade` run,
passed in as oracles: pubkey parsing, ATA balance and mint decimals
lookups, the Jupiter quote and swap calls, signing, and the retried
broadcast; `now` is the task's instant (seconds, for the risk manager)
and `elapsed_ms` the latency recorded on success. -/
structure TradeEnv where
  valid_pubkey : String → Bool
  get_token_balance : Except AppError Nat
  get_decimals : Except AppError Nat
  get_quote : String → String → Nat → Except AppError QuoteResponse
  get_swap_tx : QuoteResponse → String → Except AppError SwapResponse
  sign_transaction : String → Except AppError String
  send_with_retry : String → Except AppError String
  signer_pubkey : String
  now : ℚ
  elapsed_ms : Nat

/-- What `execute_trade` did: `submitted` records the triple passed to
`get_quote` (and broadcast) plus the returned signature; `skipped` is the
early `Ok(())` return (zero Sell balance or zero amount). -/
inductive TradeOutcome
  | submitted (input_mint output_mint : String) (amount_in_lamports : Nat) (signature : String)
  | skipped
  deriving DecidableEq, Repr

/-- Step 1 of `execute_trade` (engine.rs lines 144-185): the
`(input_mint, output_mint, amount_in_lamports)` triple.  Buy: native SOL
in, `event.mint` out, `min_trade_amount_sol · 1e9` lamports (the source
comment: "We will use `config.min_trade_amount_sol` as the buy amount").
Sell: look up our ATA balance; zero balance is a log-and-skip (`none`). -/
def tradeParams (cfg : Config) (env : TradeEnv) (event : SwapEvent) :
    Except AppError (Option (String × String × Nat)) :=
  match event.direction with
  | .Buy =>
    .ok (some (SOL_MINT, event.mint,
      castF64toU64 (cfg.min_trade_amount_sol * (LAMPORTS_PER_SOL : ℚ))))
  | .Sell =>
    if env.valid_pubkey env.signer_pubkey = false then
      .error (.Parse "Invalid wallet pubkey")
    else if env.valid_pubkey event.mint = false then
      .error (.Parse "Invalid mint pubkey")
    else
      match env.get_token_balance with
      | .error e => .error e
      | .ok balance =>
        if balance = 0 then .ok none
        else .ok (some (event.mint, SOL_MINT, balance))

/-- The approximate SOL value used for the risk check (engine.rs lines
188-200): the lamports over 1e9 when buying with SOL, otherwise the
decimals-normalised token amount times the event price. -/
def amountSolRisk (env : TradeEnv) (event : SwapEvent) (input_mint : String)
    (amount_in_lamports : Nat) : Except AppError ℚ :=
  if input_mint = SOL_MINT then
    .ok ((amount_in_lamports : ℚ) / (LAMPORTS_PER_SOL : ℚ))
  else if env.valid_pubkey input_mint = false then
    .error (.Parse "Invalid mint pubkey")
  else
    match env.get_decimals with
    | .error e => .error e
    | .ok decimals => .ok (((amount_in_lamports : ℚ) / 10 ^ decimals) * event.price)

/-- `EngineContext::execute_trade`, with the risk-manager and stats state
threaded explicitly.  The risk check runs on `output_mint` (SOL for a
Sell); a successful broadcast records the cooldown on `event.mint` and
bumps the success counter and trade latency. -/
def execute_trade (cfg : Config) (rm : RiskManager) (env : TradeEnv) (stats : Stats)
    (event : SwapEvent) : Except AppError TradeOutcome × RiskManager × Stats :=
  match tradeParams cfg env event with
  | .error e => (.error e, rm, stats)
  | .ok none => (.ok .skipped, rm, stats)
  | .ok (some (input_mint, output_mint, amount_in_lamports)) =>
    if amount_in_lamports = 0 then (.ok .skipped, rm, stats)
    else
      match amountSolRisk env event input_mint amount_in_lamports with
      | .error e => (.error e, rm, stats)
      | .ok amount_sol_risk =>
        match rm.check_trade output_mint amount_sol_risk env.now with
        | .error re => (.error (.Trading re), rm, stats)
        | .ok _ =>
          match env.get_quote input_mint output_mint amount_in_lamports with
          | .error e => (.error e, rm, stats)
          | .ok quote =>
            match env.get_swap_tx quote env.signer_pubkey with
            | .error e => (.error e, rm, stats)
            | .ok swap_response =>
              match env.sign_transaction swap_response.swap_transaction with
              | .error e => (.error e, rm, stats)
              | .ok signed_tx =>
                match env.send_with_retry signed_tx with
                | .error e => (.error e, rm, stats)
                | .ok signature =>
                  (.ok (.submitted input_mint output_mint amount_in_lamports signature),
                    rm.record_trade event.mint env.now,
                    (stats.inc_successful_trades).update_trade_latency env.elapsed_ms)

/-- The per-event task body spawned by `TradingEngine::run` (engine.rs
lines 83-88): on any `Err` from `execute_trade`, bump `failed_trades` and
log. -/
def engine_handle_event (cfg : Config) (rm : RiskManager) (env : TradeEnv)
    (stats : Stats) (event : SwapEvent) :
    Except AppError TradeOutcome × RiskManager × Stats :=
  match (execute_trade cfg rm env stats event).1 with
  | .error e => (.error e, (execute_trade cfg rm env stats event).2.1,
      (execute_trade cfg rm env stats event).2.2.inc_failed_trades)
  | .ok _ => execute_trade cfg rm env stats event

/-- `TradingEngine::new`: the risk manager is built from
`min_trade_amount_sol`, `max_trade_amount_sol` and `cooldown_seconds`. -/
def engineRiskManager (cfg : Config) : RiskManager :=
  RiskManager.new cfg.min_trade_amount_sol cfg.max_trade_amount_sol cfg.cooldown_seconds

theorem execute_trade_submitted_inv (cfg : Config) (rm : RiskManager) (env : TradeEnv)
    (stats : Stats) (event : SwapEvent) (inp outp : String) (amt : Nat) (sig : String)
    (h : (execute_trade cfg rm env stats event).1 = .ok (.submitted inp outp amt sig)) :
    tradeParams cfg env event = .ok (some (inp, outp, amt)) ∧ amt ≠ 0 ∧
      (∃ risk, amountSolRisk env event inp amt = .ok risk ∧
        rm.check_trade outp risk env.now = .ok ()) ∧
      (execute_trade cfg rm env stats event).2.1 = rm.record_trade event.mint env.now := by
  rcases hp : tradeParams cfg env event with e | po
  · simp only [execute_trade, hp] at h
    simp at h
  · rcases po with _ | ⟨i, o, a⟩
    · simp only [execute_trade, hp] at h
      simp at h
    · by_cases ha : a = 0
      · simp only [execute_trade, hp, ha, if_true, if_pos rfl] at h
        simp at h
      · rcases hr : amountSolRisk env event i a with e | risk
        · simp only [execute_trade, hp, ha, if_false, hr] at h
          simp at h
        · rcases hc : rm.check_trade o risk env.now with re | u
          · simp only [execute_trade, hp, ha, if_false, hr, hc] at h
            simp at h
          · rcases hq : env.get_quote i o a with e | quote
            · simp only [execute_trade, hp, ha, if_false, hr, hc, hq] at h
              simp at h
            · rcases hwt : env.get_swap_tx quote env.signer_pubkey with e | swapr
              · simp only [execute_trade, hp, ha, if_false, hr, hc, hq, hwt] at h
                simp at h
              · rcases hsg : env.sign_transaction swapr.swap_transaction with e | signed
                · simp only [execute_trade, hp, ha, if_false, hr, hc, hq, hwt, hsg] at h
                  simp at h
                · rcases hs : env.send_with_retry signed with e | sig'
                  · simp only [execute_trade, hp, ha, if_false, hr, hc, hq, hwt, hsg,
                      hs] at h
                    simp at h
                  · simp only [execute_trade, hp, ha, if_false, hr, hc, hq, hwt, hsg,
                      hs, Except.ok.injEq, TradeOutcome.submitted.injEq] at h
                    obtain ⟨hi, ho, hamt, hsig⟩ := h
                    subst hi
                    subst ho
                    subst hamt
                    refine ⟨rfl, ha, ⟨risk, hr, ?_⟩, ?_⟩
                    · cases u
                      exact hc
                    · simp only [execute_trade, hp, ha, if_false, hr, hc, hq, hwt,
                        hsg, hs]

/-- A trade environment in which every RPC/HTTP step succeeds. -/
def okEnv : TradeEnv :=
  { valid_pubkey := fun _ => true
    get_token_balance := .ok 0
    get_decimals := .ok 6
    get_quote := fun i o _ => .ok ⟨i, "1000000", o, "1"⟩
    get_swap_tx := fun _ _ => .ok ⟨"swaptx", 100⟩
    sign_transaction := fun tx => .ok ("signed:" ++ tx)
    send_with_retry := fun _ => .ok "sig2"
    signer_pubkey := "OurWallet"
    now := 1000
    elapsed_ms := 5 }

/-- A Buy swap event on mint `MintX`. -/
def buyEventX : SwapEvent := ⟨"sig1", "Wallet", .Buy, "MintX", 1 / 10, 1, 1 / 10⟩

/-- C1 counterexample: under the default configuration
(`BUY_AMOUNT_SOL = 0.01`, `MIRROR_MIN_SOL = 0.001`) a Buy event is
submitted with `amount_base = 1 000 000` lamports (`min_trade_amount_sol ·
1e9`), which differs from `configured_buy_amount_sol · 1e9 = 10 000 000`. -/
theorem C1_counterexample :
    (execute_trade (Config.load (fun _ => none))
      (engineRiskManager (Config.load (fun _ => none))) okEnv Stats.new buyEventX).1 =
        .ok (.submitted SOL_MINT "MintX" 1000000 "sig2")
    ∧ castF64toU64 ((Config.load (fun _ => none)).buy_amount_sol * (LAMPORTS_PER_SOL : ℚ)) =
        10000000
    ∧ (1000000 : Nat) ≠ 10000000 := by
  refine ⟨?_, ?_, by omega⟩
  · norm_num [execute_trade, tradeParams, amountSolRisk, Config.load, engineRiskManager,
      RiskManager.new, RiskManager.check_trade, castF64toU64, SOL_MINT, LAMPORTS_PER_SOL,
      okEnv, buyEventX, findMap?]
    simp only [show Int.toNat 1000000 = (1000000 : Nat) from rfl]
    norm_num
  · norm_num [Config.load, castF64toU64, LAMPORTS_PER_SOL]
    rfl

/-- C1 (amended): for every Buy event that the engine submits, the quote
and broadcast use input mint = native SOL, output mint = `event.mint`,
and `amount_base = min_trade_amount_sol · 1e9` — the `MIRROR_MIN_SOL`
setting (default 0.001), not `BUY_AMOUNT_SOL`; `Config::load` reads
`buy_amount_sol` from `BUY_AMOUNT_SOL` (default 0.01) but the engine does
not use it. -/
theorem C1_buy_trade_parameters (cfg : Config) (rm : RiskManager) (env : TradeEnv)
    (stats : Stats) (event : SwapEvent) (inp outp : String) (amt : Nat) (sig : String)
    (hdir : event.direction = .Buy)
    (h : (execute_trade cfg rm env stats event).1 = .ok (.submitted inp outp amt sig)) :
    inp = SOL_MINT ∧ outp = event.mint ∧
      amt = castF64toU64 (cfg.min_trade_amount_sol * (LAMPORTS_PER_SOL : ℚ)) ∧
      ∀ envf : String → Option ℚ,
        (Config.load envf).min_trade_amount_sol = (envf "MIRROR_MIN_SOL").getD (1 / 1000) ∧
        (Config.load envf).buy_amount_sol = (envf "BUY_AMOUNT_SOL").getD (1 / 100) := by
  obtain ⟨hp, -, -, -⟩ := execute_trade_submitted_inv cfg rm env stats event inp outp amt sig h
  simp only [tradeParams, hdir, Except.ok.injEq, Option.some.injEq, Prod.mk.injEq] at hp
  exact ⟨hp.1.symm, hp.2.1.symm, hp.2.2.symm, fun envf => ⟨rfl, rfl⟩⟩

/-- Witness for C1 (amended) at the concrete default-config Buy run. -/
theorem C1_witness :
    SOL_MINT = SOL_MINT ∧ "MintX" = buyEventX.mint ∧
      (1000000 : Nat) =
        castF64toU64 ((Config.load (fun _ => none)).min_trade_amount_sol *
          (LAMPORTS_PER_SOL : ℚ)) ∧
      ∀ envf : String → Option ℚ,
        (Config.load envf).min_trade_amount_sol = (envf "MIRROR_MIN_SOL").getD (1 / 1000) ∧
        (Config.load envf).buy_amount_sol = (envf "BUY_AMOUNT_SOL").getD (1 / 100) :=
  C1_buy_trade_parameters (Config.load (fun _ => none))
    (engineRiskManager (Config.load (fun _ => none))) okEnv Stats.new buyEventX
    SOL_MINT "MintX" 1000000 "sig2" rfl
    (by
      norm_num [execute_trade, tradeParams, amountSolRisk, Config.load,
        engineRiskManager, RiskManager.new, RiskManager.check_trade, castF64toU64,
        SOL_MINT, LAMPORTS_PER_SOL, okEnv, buyEventX, findMap?]
      simp only [show Int.toNat 1000000 = (1000000 : Nat) from rfl]
      norm_num)

/-- A risk-manager state in which mint `M` entered cooldown at instant
100 (cooldown 60 s, bounds 0.001–1 SOL). -/
def rmCooldownM : RiskManager :=
  { cooldowns := [("M", 100)], cooldown_duration := 60,
    min_amount_sol := 1 / 1000, max_amount_sol := 1 }

/-- A Sell swap event on mint `M`. -/
def sellEventM : SwapEvent := ⟨"sig1", "Wallet", .Sell, "M", 1, 1 / 10, 1 / 10⟩

/-- The all-success environment at instant 101 with a 1 000 000 base-unit
token balance. -/
def c2Env : TradeEnv := { okEnv with get_token_balance := .ok 1000000, now := 101 }

/-- C2 counterexample: one second after `record_trade("M")`, a Sell event
on `M` is submitted — the engine's cooldown check runs on the *output*
mint (native SOL for a Sell), not on `event.mint`, so the per-mint
cooldown does not guard Sells. -/
theorem C2_counterexample :
    (execute_trade (Config.load (fun _ => none)) rmCooldownM c2Env Stats.new
      sellEventM).1 = .ok (.submitted "M" SOL_MINT 1000000 "sig2")
    ∧ findMap? "M" rmCooldownM.cooldowns = some 100
    ∧ c2Env.now - 100 < rmCooldownM.cooldown_duration := by
  refine ⟨?_, by norm_num [rmCooldownM, findMap?], by norm_num [c2Env, okEnv, rmCooldownM]⟩
  norm_num [execute_trade, tradeParams, amountSolRisk, Config.load,
    RiskManager.check_trade, SOL_MINT, LAMPORTS_PER_SOL, okEnv, c2Env, sellEventM,
    rmCooldownM, findMap?,
    (show ("M" : String) ≠ "So11111111111111111111111111111111111111112" from by decide)]

/-- C2 (amended): the engine checks the cooldown on the *output* mint and
records it on `event.mint`.  For a Buy event (output = `event.mint`) the
claimed guard holds: if the mint has a cooldown entry at instant `r`, a
submitted trade implies the task's instant is at least `cooldown_seconds`
past `r`; a younger entry makes the engine reject with the Cooldown error
(when the amount passes the bounds and is nonzero); and a submitted trade
always re-records the cooldown of `event.mint` at the task's instant.
For a Sell event the cooldown check runs on native SOL, so the claim's
"every direction" part fails (see the counterexample). -/
theorem C2_cooldown_guard_buy (cfg : Config) (rm : RiskManager) (env : TradeEnv)
    (stats : Stats) (event : SwapEvent) (r : ℚ) (hdir : event.direction = .Buy)
    (hcool : findMap? event.mint rm.cooldowns = some r) :
    (∀ inp outp : String, ∀ amt : Nat, ∀ sig : String,
      (execute_trade cfg rm env stats event).1 = .ok (.submitted inp outp amt sig) →
      rm.cooldown_duration ≤ env.now - r)
    ∧ (env.now - r < rm.cooldown_duration →
      rm.min_amount_sol ≤
        ((castF64toU64 (cfg.min_trade_amount_sol * (LAMPORTS_PER_SOL : ℚ)) : ℚ) /
          (LAMPORTS_PER_SOL : ℚ)) →
      ((castF64toU64 (cfg.min_trade_amount_sol * (LAMPORTS_PER_SOL : ℚ)) : ℚ) /
          (LAMPORTS_PER_SOL : ℚ)) ≤ rm.max_amount_sol →
      castF64toU64 (cfg.min_trade_amount_sol * (LAMPORTS_PER_SOL : ℚ)) ≠ 0 →
      (execute_trade cfg rm env stats event).1 =
        .error (.Trading (.Cooldown event.mint
          (rm.cooldown_duration - (env.now - r)))))
    ∧ (∀ inp outp : String, ∀ amt : Nat, ∀ sig : String,
      (execute_trade cfg rm env stats event).1 = .ok (.submitted inp outp amt sig) →
      (execute_trade cfg rm env stats event).2.1 = rm.record_trade event.mint env.now) := by
  refine ⟨?_, ?_, ?_⟩
  · intro inp outp amt sig h
    obtain ⟨hp, -, ⟨risk, hr, hc⟩, -⟩ :=
      execute_trade_submitted_inv cfg rm env stats event inp outp amt sig h
    simp only [tradeParams, hdir, Except.ok.injEq, Option.some.injEq, Prod.mk.injEq] at hp
    obtain ⟨hi, ho, -⟩ := hp
    rw [← ho] at hc
    exact ((check_trade_ok_iff rm event.mint risk env.now).mp hc).2.2 r hcool
  · intro hyoung hmin hmax hamt
    have hp : tradeParams cfg env event = .ok (some (SOL_MINT, event.mint,
        castF64toU64 (cfg.min_trade_amount_sol * (LAMPORTS_PER_SOL : ℚ)))) := by
      simp [tradeParams, hdir]
    have hr : amountSolRisk env event SOL_MINT
        (castF64toU64 (cfg.min_trade_amount_sol * (LAMPORTS_PER_SOL : ℚ))) =
        .ok (((castF64toU64 (cfg.min_trade_amount_sol * (LAMPORTS_PER_SOL : ℚ)) : ℚ)) /
          (LAMPORTS_PER_SOL : ℚ)) := by
      simp [amountSolRisk]
    have hcheck : rm.check_trade event.mint
        (((castF64toU64 (cfg.min_trade_amount_sol * (LAMPORTS_PER_SOL : ℚ)) : ℚ)) /
          (LAMPORTS_PER_SOL : ℚ)) env.now =
        .error (.Cooldown event.mint (rm.cooldown_duration - (env.now - r))) := by
      rw [check_trade_eq_of_some rm event.mint _ env.now r (not_lt.mpr hmin)
        (not_lt.mpr hmax) hcool, if_pos hyoung]
    simp only [execute_trade, hp, hamt, if_false, hr, hcheck]
  · intro inp outp amt sig h
    obtain ⟨-, -, -, hrec⟩ :=
      execute_trade_submitted_inv cfg rm env stats event inp outp amt sig h
    exact hrec

/-- A risk-manager state in which `MintX` entered cooldown at instant 100
(the all-success environment's instant is 1000, so the cooldown of 60 s
has long expired). -/
def rmOldCooldownX : RiskManager :=
  { cooldowns := [("MintX", 100)], cooldown_duration := 60,
    min_amount_sol := 1 / 1000, max_amount_sol := 1 }

/-- Witness for C2 (amended): a Buy on `MintX` whose cooldown entry is 900
seconds old is submitted, and the theorem yields `60 ≤ 1000 − 100`. -/
theorem C2_witness :
    rmOldCooldownX.cooldown_duration ≤ okEnv.now - 100 :=
  (C2_cooldown_guard_buy (Config.load (fun _ => none)) rmOldCooldownX okEnv Stats.new
    buyEventX 100 rfl (by norm_num [rmOldCooldownX, findMap?, buyEventX])).1
    SOL_MINT "MintX" 1000000 "sig2"
    (by
      norm_num [execute_trade, tradeParams, amountSolRisk, Config.load,
        RiskManager.check_trade, castF64toU64, SOL_MINT, LAMPORTS_PER_SOL, okEnv,
        buyEventX, rmOldCooldownX, findMap?]
      simp only [show Int.toNat 1000000 = (1000000 : Nat) from rfl]
      norm_num)

theorem execute_trade_failed_trades (cfg : Config) (rm : RiskManager) (env : TradeEnv)
    (stats : Stats) (event : SwapEvent) :
    (execute_trade cfg rm env stats event).2.2.failed_trades = stats.failed_trades := by
  unfold execute_trade
  repeat' split
  all_goals simp [Stats.inc_successful_trades, Stats.update_trade_latency]

/-- A Buy swap event on mint `M`. -/
def buyEventM : SwapEvent := ⟨"sig1", "Wallet", .Buy, "M", 1 / 10, 1, 1 / 10⟩

/-- C3 counterexample: a Buy on a mint in cooldown is rejected by the risk
check — yet the engine's task handler counts it as a failed trade
(`failed_trades` goes from 0 to 1), contradicting "inc_failed_trades is
invoked only for errors after risk approval". -/
theorem C3_counterexample :
    (execute_trade (Config.load (fun _ => none)) rmCooldownM c2Env Stats.new
      buyEventM).1 = .error (.Trading (.Cooldown "M" 59))
    ∧ (engine_handle_event (Config.load (fun _ => none)) rmCooldownM c2Env Stats.new
        buyEventM).2.2.failed_trades = 1 := by
  have h1 : (execute_trade (Config.load (fun _ => none)) rmCooldownM c2Env Stats.new
      buyEventM).1 = .error (.Trading (.Cooldown "M" 59)) := by
    norm_num [execute_trade, tradeParams, amountSolRisk, Config.load,
      RiskManager.check_trade, castF64toU64, SOL_MINT, LAMPORTS_PER_SOL, okEnv, c2Env,
      buyEventM, rmCooldownM, findMap?]
    simp only [show Int.toNat 1000000 = (1000000 : Nat) from rfl]
    norm_num
  refine ⟨h1, ?_⟩
  simp only [engine_handle_event, h1, Stats.inc_failed_trades]
  rw [execute_trade_failed_trades]
  rfl

/-- C3 (amended): the engine's per-event handler increments
`failed_trades` for *every* error returned by `execute_trade` — including
a risk-check rejection and the Sell-branch lookups that precede it — and
leaves it unchanged exactly on the `Ok` outcomes (submitted or skipped);
`execute_trade` itself never touches `failed_trades`. -/
theorem C3_failed_trades_counting (cfg : Config) (rm : RiskManager) (env : TradeEnv)
    (stats : Stats) (event : SwapEvent) :
    ((execute_trade cfg rm env stats event).2.2.failed_trades = stats.failed_trades)
    ∧ ((engine_handle_event cfg rm env stats event).2.2.failed_trades =
        stats.failed_trades +
          (match (execute_trade cfg rm env stats event).1 with
            | .ok _ => 0
            | .error _ => 1)) := by
  refine ⟨execute_trade_failed_trades cfg rm env stats event, ?_⟩
  rcases he : (execute_trade cfg rm env stats event).1 with e | o
  · simp only [engine_handle_event, he, Stats.inc_failed_trades]
    rw [execute_trade_failed_trades]
  · simp only [engine_handle_event, he]
    rw [execute_trade_failed_trades]
    omega

end CopyBot
